import Mathlib

/-!
# go-pusher: the handshake, the subscription registry, the binding table and the dispatch loop

A shallow embedding of `client.go` and `event.go`.

* The websocket, the HTTP authorizer and the logger are the environment: what a receive, a
  send or the HTTP round trip returns is an argument of the operation that performs it, and
  every frame handed to `websocket.Message.Send` and every log line is recorded in the state.
* `encoding/json` is embedded as far as the client uses it: the grammar of JSON texts
  (`parseJSON`), decoding into a struct driven by the struct tags of `event.go`
  (`decodeStruct`), decoding into `map[string]interface{}` (`unmarshalMap`) and `json.Marshal`
  of such a map (`marshalMap`).  Texts are sequences of Unicode characters, so invalid UTF-8
  is not represented.  Conversion between number literals and `float64` is `strconv`'s and is
  a parameter (`Strconv`); the range check of `ParseFloat` is also given exactly
  (`float64Overflows`).
* Go channels are buffers with a capacity; a send on a full buffer blocks.
-/

namespace Pusher

/-! ## JSON texts -/

/-- The syntax tree of a JSON text.  A number keeps its literal, an object keeps its members
in the order of the text, duplicates included. -/
inductive JSON where
  | null
  | bool (b : Bool)
  | num (lit : String)
  | str (s : String)
  | arr (xs : List JSON)
  | obj (kvs : List (String × JSON))

/-- The four characters the scanner of `encoding/json` treats as white space. -/
def isSpace (c : Char) : Bool :=
  c == ' ' || c == '\t' || c == '\n' || c == '\r'

def skipSpace : List Char → List Char
  | [] => []
  | c :: cs => if isSpace c then skipSpace cs else c :: cs

def isDigit (c : Char) : Bool :=
  decide (48 ≤ c.toNat) && decide (c.toNat ≤ 57)

/-- The longest run of decimal digits at the head of the input, and what follows it. -/
def spanDigits : List Char → List Char × List Char
  | [] => ([], [])
  | c :: cs =>
    if isDigit c then ((spanDigits cs).1.cons c, (spanDigits cs).2) else ([], c :: cs)

def hexVal (c : Char) : Option Nat :=
  if isDigit c then some (c.toNat - 48)
  else if decide (97 ≤ c.toNat) && decide (c.toNat ≤ 102) then some (c.toNat - 87)
  else if decide (65 ≤ c.toNat) && decide (c.toNat ≤ 70) then some (c.toNat - 55)
  else none

/-- Four hexadecimal digits at the head of the input, as a number. -/
def hex4 : List Char → Option Nat
  | a :: b :: c :: d :: _ =>
    match hexVal a, hexVal b, hexVal c, hexVal d with
    | some a, some b, some c, some d => some (((a * 16 + b) * 16 + c) * 16 + d)
    | _, _, _, _ => none
  | _ => none

/-- The function `getu4` of `encoding/json`: the value of a `\uXXXX` escape at the head of the
input. -/
def getu4 : List Char → Option Nat
  | c :: u :: rest => if c == '\\' && u == 'u' then hex4 rest else none
  | _ => none

def isSurrogate (r : Nat) : Bool := decide (0xD800 ≤ r) && decide (r < 0xE000)

/-- The function `utf16.DecodeRune`: the code point of a surrogate pair, `none` where Go
returns the replacement character. -/
def decodeSurrogates (r1 r2 : Nat) : Option Nat :=
  if decide (0xD800 ≤ r1) && decide (r1 < 0xDC00) && decide (0xDC00 ≤ r2) && decide (r2 < 0xE000)
  then some ((r1 - 0xD800) * 0x400 + (r2 - 0xDC00) + 0x10000) else none

def replacementChar : Char := Char.ofNat 0xFFFD

/-- The character a one-letter escape stands for. -/
def unescape (c : Char) : Option Char :=
  if c == '"' then some '"'
  else if c == '\\' then some '\\'
  else if c == '/' then some '/'
  else if c == 'b' then some (Char.ofNat 8)
  else if c == 'f' then some (Char.ofNat 12)
  else if c == 'n' then some '\n'
  else if c == 'r' then some '\r'
  else if c == 't' then some '\t'
  else none

/-- The body of a string literal, the opening quote already consumed: the decoded characters
(accumulated in reverse in `acc`) and the input after the closing quote.  A control character
or an unknown escape makes the text invalid; a lone surrogate escape decodes to U+FFFD. -/
def scanString : Nat → List Char → List Char → Option (List Char × List Char)
  | 0, _, _ => none
  | fuel + 1, cs, acc =>
    match cs with
    | [] => none
    | c :: rest =>
      if c == '"' then some (acc.reverse, rest)
      else if c == '\\' then
        match rest with
        | [] => none
        | e :: rest2 =>
          if e == 'u' then
            match hex4 rest2 with
            | none => none
            | some r =>
              if isSurrogate r then
                match getu4 (rest2.drop 4) with
                | some r1 =>
                  match decodeSurrogates r r1 with
                  | some d => scanString fuel (rest2.drop 10) (Char.ofNat d :: acc)
                  | none => scanString fuel (rest2.drop 4) (replacementChar :: acc)
                | none => scanString fuel (rest2.drop 4) (replacementChar :: acc)
              else scanString fuel (rest2.drop 4) (Char.ofNat r :: acc)
          else
            match unescape e with
            | some x => scanString fuel rest2 (x :: acc)
            | none => none
      else if decide (c.toNat < 0x20) then none
      else scanString fuel rest (c :: acc)

/-- The digits of a fraction or of an exponent: at least one is required. -/
def scanDigits1 (cs : List Char) : Option (List Char × List Char) :=
  match spanDigits cs with
  | ([], _) => none
  | (ds, rest) => some (ds, rest)

/-- The integer part of a number: a single `0`, or a non-zero digit followed by digits. -/
def scanInt : List Char → Option (List Char × List Char)
  | [] => none
  | c :: cs =>
    if c == '0' then some ([c], cs)
    else if isDigit c then some ((spanDigits cs).1.cons c, (spanDigits cs).2)
    else none

def scanFrac (cs : List Char) : Option (List Char × List Char) :=
  match cs with
  | c :: rest =>
    if c == '.' then
      match scanDigits1 rest with
      | some (ds, rest2) => some (c :: ds, rest2)
      | none => none
    else some ([], cs)
  | [] => some ([], [])

def scanExp (cs : List Char) : Option (List Char × List Char) :=
  match cs with
  | c :: rest =>
    if c == 'e' || c == 'E' then
      match rest with
      | s :: rest2 =>
        if s == '+' || s == '-' then
          match scanDigits1 rest2 with
          | some (ds, rest3) => some (c :: s :: ds, rest3)
          | none => none
        else
          match scanDigits1 rest with
          | some (ds, rest3) => some (c :: ds, rest3)
          | none => none
      | [] => none
    else some ([], cs)
  | [] => some ([], [])

/-- A number literal at the head of the input: its text and what follows it. -/
def scanNumber (cs : List Char) : Option (List Char × List Char) :=
  let sign : List Char × List Char :=
    match cs with
    | c :: rest => if c == '-' then ([c], rest) else ([], cs)
    | [] => ([], [])
  match scanInt sign.2 with
  | none => none
  | some (i, r1) =>
    match scanFrac r1 with
    | none => none
    | some (f, r2) =>
      match scanExp r2 with
      | none => none
      | some (e, r3) => some (sign.1 ++ i ++ f ++ e, r3)

/-- Strip `lit` from the head of the input. -/
def stripLit : List Char → List Char → Option (List Char)
  | [], cs => some cs
  | _ :: _, [] => none
  | l :: ls, c :: cs => if l == c then stripLit ls cs else none

mutual
/-- One JSON value at the head of the input (after white space) and the input that follows. -/
def parseValue : Nat → List Char → Option (JSON × List Char)
  | 0, _ => none
  | fuel + 1, cs =>
    match skipSpace cs with
    | [] => none
    | c :: rest =>
      if c == '\x7b' then
        match skipSpace rest with
        | d :: rest2 => if d == '\x7d' then some (JSON.obj [], rest2) else parseMembers fuel rest []
        | [] => none
      else if c == '[' then
        match skipSpace rest with
        | d :: rest2 => if d == ']' then some (JSON.arr [], rest2) else parseElems fuel rest []
        | [] => none
      else if c == '"' then
        match scanString (rest.length + 1) rest [] with
        | some (s, rest2) => some (JSON.str (String.mk s), rest2)
        | none => none
      else if c == '-' || isDigit c then
        match scanNumber (c :: rest) with
        | some (n, rest2) => some (JSON.num (String.mk n), rest2)
        | none => none
      else if c == 't' then (stripLit "rue".data rest).map (fun r => (JSON.bool true, r))
      else if c == 'f' then (stripLit "alse".data rest).map (fun r => (JSON.bool false, r))
      else if c == 'n' then (stripLit "ull".data rest).map (fun r => (JSON.null, r))
      else none
/-- The elements of an array after `[` or `,`: a value, then `,` or `]`. -/
def parseElems : Nat → List Char → List JSON → Option (JSON × List Char)
  | 0, _, _ => none
  | fuel + 1, cs, acc =>
    match parseValue fuel cs with
    | none => none
    | some (v, rest) =>
      match skipSpace rest with
      | d :: rest2 =>
        if d == ',' then parseElems fuel rest2 (v :: acc)
        else if d == ']' then some (JSON.arr (v :: acc).reverse, rest2)
        else none
      | [] => none
/-- The members of an object after `{` or `,`: a string, `:`, a value, then `,` or `}`. -/
def parseMembers : Nat → List Char → List (String × JSON) → Option (JSON × List Char)
  | 0, _, _ => none
  | fuel + 1, cs, acc =>
    match skipSpace cs with
    | q :: rest =>
      if q == '"' then
        match scanString (rest.length + 1) rest [] with
        | none => none
        | some (k, rest2) =>
          match skipSpace rest2 with
          | col :: rest3 =>
            if col == ':' then
              match parseValue fuel rest3 with
              | none => none
              | some (v, rest4) =>
                match skipSpace rest4 with
                | d :: rest5 =>
                  if d == ',' then parseMembers fuel rest5 ((String.mk k, v) :: acc)
                  else if d == '\x7d' then some (JSON.obj ((String.mk k, v) :: acc).reverse, rest5)
                  else none
                | [] => none
            else none
          | [] => none
      else none
    | [] => none
end

/-- The JSON text `s` as a syntax tree; `none` when `s` is not a valid JSON text (the
`SyntaxError` of `json.Unmarshal`).  Each nested call consumes a character, so the fuel, more
than twice the length, never runs out. -/
def parseJSON (s : String) : Option JSON :=
  match parseValue (2 * s.length + 2) s.data with
  | none => none
  | some (v, rest) =>
    match skipSpace rest with
    | [] => some v
    | _ :: _ => none

/-! ## Errors -/

/-- Go `error` values: the two kinds `json.Unmarshal` returns, the errors the client makes
with `errors.New`, and the errors of the websocket and HTTP libraries. -/
inductive Error where
  | SyntaxError
  | UnmarshalTypeError (value : String)
  | New (text : String)
  | transport (text : String)
  deriving DecidableEq, Repr

/-! ## Decoding into a struct (reflection over the struct tags) -/

inductive Kind where
  | string
  | int
  deriving DecidableEq, Repr

/-- One field of a struct declaration: Go name, type and tag, as written in the source. -/
structure StructField where
  Name : String
  Kind : Kind
  Tag : String
  deriving DecidableEq, Repr

inductive FieldVal where
  | string (s : String)
  | int (n : Int)
  deriving DecidableEq, Repr

/-- The value of a struct: each Go field name with its value. -/
abbrev StructVal := List (String × FieldVal)

def zeroOf : Kind → FieldVal
  | .string => .string ""
  | .int => .int 0

def zeroStruct (fields : List StructField) : StructVal :=
  fields.map (fun f => (f.Name, zeroOf f.Kind))

def setField (name : String) (v : FieldVal) : StructVal → StructVal
  | [] => []
  | (n, w) :: rest => if n = name then (n, v) :: rest else (n, w) :: setField name v rest

def getString (sv : StructVal) (name : String) : String :=
  match sv.lookup name with
  | some (.string s) => s
  | _ => ""

def getInt (sv : StructVal) (name : String) : Int :=
  match sv.lookup name with
  | some (.int n) => n
  | _ => 0

/-- The quoted value of a tag entry, its opening quote already consumed: the text up to the
closing quote and what follows.  A backslash protects the next character. -/
def scanQuoted : Nat → List Char → List Char → Option (List Char × List Char)
  | 0, _, _ => none
  | fuel + 1, cs, acc =>
    match cs with
    | [] => none
    | c :: rest =>
      if c == '"' then some (acc.reverse, rest)
      else if c == '\\' then
        match rest with
        | [] => none
        | d :: rest2 => scanQuoted fuel rest2 (d :: c :: acc)
      else scanQuoted fuel rest (c :: acc)

/-- A character that may stand in the key of a tag entry. -/
def isTagKeyChar (c : Char) : Bool :=
  decide (0x20 < c.toNat) && c != ':' && c != '"' && decide (c.toNat ≠ 0x7f)

/-- The method `reflect.StructTag.Lookup`: the conventional `key:"value"` entries of a tag are
read from left to right until one has the key looked for; a malformed entry ends the search.
Values are taken as written between the quotes (the tags of this package have no escape
sequence; one with a backslash is not found). -/
def tagLookup : Nat → List Char → List Char → Option (List Char)
  | 0, _, _ => none
  | fuel + 1, tag, key =>
    let tag1 := tag.dropWhile (fun c => c == ' ')
    let name := tag1.takeWhile isTagKeyChar
    match name, tag1.dropWhile isTagKeyChar with
    | _ :: _, c :: q :: rest =>
      if c == ':' && q == '"' then
        match scanQuoted (rest.length + 1) rest [] with
        | none => none
        | some (value, rest2) =>
          if name = key then (if value.contains '\\' then none else some value)
          else tagLookup fuel rest2 key
      else none
    | _, _ => none

/-- The method `reflect.StructTag.Get`. -/
def tagGet (tag : String) (key : String) : String :=
  match tagLookup (tag.length + 1) tag.data key.data with
  | some v => String.mk v
  | none => ""

def isAsciiLetter (c : Char) : Bool :=
  (decide (65 ≤ c.toNat) && decide (c.toNat ≤ 90)) || (decide (97 ≤ c.toNat) && decide (c.toNat ≤ 122))

/-- The function `isValidTag` of `encoding/json`, on ASCII names. -/
def isValidTag (s : List Char) : Bool :=
  !s.isEmpty && s.all (fun c =>
    "!#$%&()*+-./:;<=>?@[]^_\x7b|\x7d~ ".data.contains c || isAsciiLetter c || isDigit c)

/-- The name part of a `json` tag: the text before the first comma (`parseTag`). -/
def tagName (tag : String) : List Char :=
  tag.data.takeWhile (fun c => c != ',')

/-- A field is exported when its name starts with an upper-case letter. -/
def isExported (name : String) : Bool :=
  match name.data with
  | c :: _ => decide (65 ≤ c.toNat) && decide (c.toNat ≤ 90)
  | [] => false

/-- The JSON name under which `encoding/json` decodes a field (`typeFields`): none for an
unexported field and for the tag `-`; the name in the `json` tag when there is a valid one;
the Go name otherwise. -/
def jsonName (f : StructField) : Option String :=
  if !isExported f.Name then none
  else if tagGet f.Tag "json" = "-" then none
  else if isValidTag (tagName (tagGet f.Tag "json")) then some (String.mk (tagName (tagGet f.Tag "json")))
  else some f.Name

/-- The fields `encoding/json` sees, each with its JSON name, in declaration order. -/
def jsonFields (fields : List StructField) : List (String × StructField) :=
  fields.filterMap (fun f => (jsonName f).map (fun n => (n, f)))

def asciiLower (c : Char) : Nat :=
  if decide (65 ≤ c.toNat) && decide (c.toNat ≤ 90) then c.toNat + 32 else c.toNat

/-- Case folding of one character of an object key `k` against one character `f` of an ASCII
field name: the letters fold with their other case, and `k` and `s` also with the Kelvin sign
U+212A and the long s U+017F. -/
def foldEqChar (f k : Char) : Bool :=
  f == k
  || (isAsciiLetter f && isAsciiLetter k && asciiLower f == asciiLower k)
  || (asciiLower f == 107 && k.toNat == 0x212A)
  || (asciiLower f == 115 && k.toNat == 0x17F)

/-- The function `bytes.EqualFold` between an ASCII field name and an object key. -/
def equalFold : List Char → List Char → Bool
  | [], [] => true
  | f :: fs, k :: ks => foldEqChar f k && equalFold fs ks
  | _, _ => false

/-- The field an object key selects: the one whose JSON name is the key, else the first one
whose JSON name equals the key under case folding. -/
def findField (fs : List (String × StructField)) (key : String) : Option StructField :=
  match fs.find? (fun p => p.1 == key) with
  | some p => some p.2
  | none => (fs.find? (fun p => equalFold p.1.data key.data)).map (fun p => p.2)

/-- The value of an optional sign followed by decimal digits: `strconv.ParseInt` in base 10
before the range check. -/
def parseDigits : List Char → Option Nat
  | [] => none
  | cs => if cs.all isDigit then some (cs.foldl (fun n c => n * 10 + (c.toNat - 48)) 0) else none

def parseInt (lit : String) : Option Int :=
  match lit.data with
  | c :: rest =>
    if c == '-' then (parseDigits rest).map (fun n => - (n : Int))
    else (parseDigits (c :: rest)).map (fun n => (n : Int))
  | [] => none

/-- The word `UnmarshalTypeError` uses for a JSON value of the wrong kind. -/
def describe : JSON → String
  | .null => "null"
  | .bool _ => "bool"
  | .num _ => "number"
  | .str _ => "string"
  | .arr _ => "array"
  | .obj _ => "object"

/-- Store one JSON value into a field of the given kind: the new value, `none` when the value
is `null` (the field is left as it is), an error when the value has another type or the
number does not fit an `int`. -/
def storeField : Kind → JSON → Except Error (Option FieldVal)
  | _, .null => .ok none
  | .string, .str s => .ok (some (.string s))
  | .int, .num lit =>
    match parseInt lit with
    | some n =>
      if - (2 : Int) ^ 63 ≤ n ∧ n < (2 : Int) ^ 63 then .ok (some (.int n))
      else .error (.UnmarshalTypeError ("number " ++ lit))
    | none => .error (.UnmarshalTypeError ("number " ++ lit))
  | _, j => .error (.UnmarshalTypeError (describe j))

/-- Decode the members of an object into a struct, in the order of the text: a key that
selects no field is skipped, a later member overwrites an earlier one.  The decoder keeps the
first type error and goes on; since every caller discards the value when an error comes back,
only the error is kept here. -/
def decodeMembers (fs : List (String × StructField)) : List (String × JSON) → StructVal → Except Error StructVal
  | [], sv => .ok sv
  | (k, j) :: rest, sv =>
    match findField fs k with
    | none => decodeMembers fs rest sv
    | some f =>
      match storeField f.Kind j with
      | .error e => .error e
      | .ok none => decodeMembers fs rest sv
      | .ok (some v) => decodeMembers fs rest (setField f.Name v sv)

/-- Decode a JSON value into a struct value: `null` leaves it as it is, an object fills it,
anything else is a type error. -/
def decodeStruct (fields : List StructField) (sv : StructVal) : JSON → Except Error StructVal
  | .null => .ok sv
  | .obj kvs => decodeMembers (jsonFields fields) kvs sv
  | j => .error (.UnmarshalTypeError (describe j))

/-! ## event.go -/

structure ConnectionData where
  SocketId : String
  ActivityTimeout : Int
  deriving DecidableEq, Repr

/-- The declaration of `ConnectionData`; the tag of `ActivityTimeout` starts with an
apostrophe (written `\x27` here), as in the source. -/
def ConnectionData.fields : List StructField :=
  [ ⟨"SocketId", .string, "json:\"socket_id\""⟩,
    ⟨"ActivityTimeout", .int, "\x27json:\"activity_timeout\""⟩ ]

structure Event where
  Event : String
  Data : String
  deriving DecidableEq, Repr

def Event.fields : List StructField :=
  [ ⟨"Event", .string, "json:\"event\""⟩,
    ⟨"Data", .string, "json:\"data\""⟩ ]

/-- The type `eventError`, which represents the data of a `pusher:error`. -/
structure eventError where
  message : String
  code : Int
  deriving DecidableEq, Repr

def eventError.fields : List StructField :=
  [ ⟨"message", .string, "json:\"message\""⟩,
    ⟨"code", .int, "json:\"code\""⟩ ]

/-- The call `json.Unmarshal(data, &event)` on a zero `Event`. -/
def unmarshalEvent (data : String) : Except Error Event :=
  match parseJSON data with
  | none => .error .SyntaxError
  | some j =>
    match decodeStruct Event.fields (zeroStruct Event.fields) j with
    | .error e => .error e
    | .ok sv => .ok ⟨getString sv "Event", getString sv "Data"⟩

/-- The call `json.Unmarshal(data, &connData)` on a nil `*ConnectionData`: `null` leaves the
pointer nil (`none`), any other value is decoded into a fresh `ConnectionData`. -/
def unmarshalConnectionData (data : String) : Except Error (Option ConnectionData) :=
  match parseJSON data with
  | none => .error .SyntaxError
  | some .null => .ok none
  | some j =>
    match decodeStruct ConnectionData.fields (zeroStruct ConnectionData.fields) j with
    | .error e => .error e
    | .ok sv => .ok (some ⟨getString sv "SocketId", getInt sv "ActivityTimeout"⟩)

/-- The call `json.Unmarshal(data, &data)` on a zero `eventError`. -/
def unmarshalEventError (data : String) : Except Error eventError :=
  match parseJSON data with
  | none => .error .SyntaxError
  | some j =>
    match decodeStruct eventError.fields (zeroStruct eventError.fields) j with
    | .error e => .error e
    | .ok sv => .ok ⟨getString sv "message", getInt sv "code"⟩

/-! ## Go maps -/

/-- Order of two strings by code points, which is the byte order of their UTF-8 forms. -/
def ltChars : List Char → List Char → Bool
  | [], [] => false
  | [], _ :: _ => true
  | _ :: _, [] => false
  | a :: as, b :: bs =>
    if a.toNat < b.toNat then true else if b.toNat < a.toNat then false else ltChars as bs

/-- The expression `m[k]` with its `ok`: the entry of a map with string keys. -/
def mapGet {α : Type} (k : String) : List (String × α) → Option α
  | [] => none
  | (k1, v) :: rest => if k1 = k then some v else mapGet k rest

/-- The statement `m[k] = v`.  A Go map has no order; the entries are kept in the order of their
keys, which is the order `json.Marshal` writes them in. -/
def mapSet {α : Type} (k : String) (v : α) : List (String × α) → List (String × α)
  | [] => [(k, v)]
  | (k1, v1) :: rest =>
    if k1 = k then (k, v) :: rest
    else if ltChars k.data k1.data then (k, v) :: (k1, v1) :: rest
    else (k1, v1) :: mapSet k v rest

/-- The statement `delete(m, k)`. -/
def mapDelete {α : Type} (k : String) : List (String × α) → List (String × α)
  | [] => []
  | (k1, v) :: rest => if k1 = k then mapDelete k rest else (k1, v) :: mapDelete k rest

/-! ## Decoding into `map[string]interface{}` and `json.Marshal` -/

/-- The two facts about `float64` that `encoding/json` takes from `strconv`: whether
`ParseFloat` rejects a number literal as out of range, and the text `json.Marshal` writes for
the `float64` a literal parses to. -/
structure Strconv where
  rangeError : String → Bool
  formatFloat : String → String

/-- The values `encoding/json` stores in an `interface{}`.  A `float64` is represented by a
literal it was parsed from. -/
inductive GoVal where
  | nil
  | bool (b : Bool)
  | float64 (lit : String)
  | string (s : String)
  | slice (xs : List GoVal)
  | map (m : List (String × GoVal))

mutual
/-- Decode a JSON value into an `interface{}`. -/
def decodeInterface (sc : Strconv) : JSON → Except Error GoVal
  | .null => .ok .nil
  | .bool b => .ok (.bool b)
  | .num lit =>
    if sc.rangeError lit then .error (.UnmarshalTypeError ("number " ++ lit)) else .ok (.float64 lit)
  | .str s => .ok (.string s)
  | .arr xs =>
    match decodeElems sc xs with
    | .error e => .error e
    | .ok vs => .ok (.slice vs)
  | .obj kvs =>
    match decodeEntries sc kvs [] with
    | .error e => .error e
    | .ok m => .ok (.map m)
/-- Decode the elements of an array. -/
def decodeElems (sc : Strconv) : List JSON → Except Error (List GoVal)
  | [] => .ok []
  | x :: xs =>
    match decodeInterface sc x with
    | .error e => .error e
    | .ok v =>
      match decodeElems sc xs with
      | .error e => .error e
      | .ok vs => .ok (v :: vs)
/-- Decode the members of an object into the map `m`, a later member replacing an earlier one
with the same key. -/
def decodeEntries (sc : Strconv) : List (String × JSON) → List (String × GoVal) → Except Error (List (String × GoVal))
  | [], m => .ok m
  | (k, j) :: rest, m =>
    match decodeInterface sc j with
    | .error e => .error e
    | .ok v => decodeEntries sc rest (mapSet k v m)
end

/-- The call `json.Unmarshal(data, &tmpData)` on a nil `map[string]interface{}`: the resulting
map, `none` when it is still nil, which is what the JSON text `null` leaves. -/
def unmarshalMap (sc : Strconv) (data : String) : Except Error (Option (List (String × GoVal))) :=
  match parseJSON data with
  | none => .error .SyntaxError
  | some .null => .ok none
  | some (.obj kvs) =>
    match decodeEntries sc kvs [] with
    | .error e => .error e
    | .ok m => .ok (some m)
  | some j => .error (.UnmarshalTypeError (describe j))

def hexDigit (n : Nat) : Char :=
  "0123456789abcdef".data.getD n '0'

/-- The text `json.Marshal` writes for one character of a string (HTML escaping is on). -/
def quoteChar (c : Char) : List Char :=
  if c == '"' then ['\\', '"']
  else if c == '\\' then ['\\', '\\']
  else if c.toNat == 8 then ['\\', 'b']
  else if c.toNat == 12 then ['\\', 'f']
  else if c == '\n' then ['\\', 'n']
  else if c == '\r' then ['\\', 'r']
  else if c == '\t' then ['\\', 't']
  else if decide (c.toNat < 0x20) || c == '<' || c == '>' || c == '&' then
    ['\\', 'u', '0', '0', hexDigit (c.toNat / 16), hexDigit (c.toNat % 16)]
  else if c.toNat == 0x2028 || c.toNat == 0x2029 then
    ['\\', 'u', '2', '0', '2', hexDigit (c.toNat % 16)]
  else [c]

def quoteChars : List Char → List Char
  | [] => []
  | c :: cs => quoteChar c ++ quoteChars cs

def quote (s : String) : List Char :=
  '"' :: (quoteChars s.data ++ ['"'])

mutual
/-- The text `json.Marshal` writes for an `interface{}` value. -/
def marshal (sc : Strconv) : GoVal → List Char
  | .nil => "null".data
  | .bool b => if b then "true".data else "false".data
  | .float64 lit => (sc.formatFloat lit).data
  | .string s => quote s
  | .slice xs => '[' :: (marshalElems sc xs ++ [']'])
  | .map m => '\x7b' :: (marshalEntries sc m ++ ['\x7d'])
/-- The elements of a slice, separated by commas. -/
def marshalElems (sc : Strconv) : List GoVal → List Char
  | [] => []
  | x :: xs =>
    match xs with
    | [] => marshal sc x
    | _ :: _ => marshal sc x ++ (',' :: marshalElems sc xs)
/-- The entries of a map, separated by commas. -/
def marshalEntries (sc : Strconv) : List (String × GoVal) → List Char
  | [] => []
  | (k, v) :: rest =>
    match rest with
    | [] => quote k ++ (':' :: marshal sc v)
    | _ :: _ => quote k ++ (':' :: marshal sc v) ++ (',' :: marshalEntries sc rest)
end

/-- The call `json.Marshal(tmpData)` on a non-nil `map[string]interface{}`. -/
def marshalMap (sc : Strconv) (m : List (String × GoVal)) : String :=
  String.mk (marshal sc (.map m))

/-! ## The client state -/

/-- The constants of the package that `client.go` uses and does not declare. -/
structure Config where
  PROTOCOL_VERSION : String
  HEARTBEAT_RATE : Nat
  EVENT_CHANNEL_BUFF_SIZE : Nat

/-- A channel `chan *Event` made with `make`, named by its position in the heap. -/
abbrev ChanId := Nat

/-- A Go channel: the capacity it was made with and the elements waiting in its buffer, the
oldest first. -/
structure Chan where
  cap : Nat
  buf : List Event
  deriving DecidableEq, Repr

/-- The statement `ch <- ev` with no receiver waiting: the element joins the buffer when
there is room; otherwise, and on a channel that was never made, the sender blocks (`none`). -/
def chanSend (heap : List Chan) (ch : ChanId) (ev : Event) : Option (List Chan) :=
  match heap[ch]? with
  | none => none
  | some q => if q.buf.length < q.cap then some (heap.set ch ⟨q.cap, q.buf ++ [ev]⟩) else none

/-- One operand of a `Println` on the logger `Info`. -/
inductive LogArg where
  | text (s : String)
  | err (e : Error)
  deriving DecidableEq, Repr

/-- The websocket as the client uses it: the frames handed to `websocket.Message.Send`, the
oldest first, and whether `Close` was called. -/
structure Conn where
  sent : List String
  closed : Bool
  deriving DecidableEq, Repr

/-- Modelled from the spec: the type `subscribedChannels` and its methods `contains`, `add` and
`remove` are declared outside `client.go`; `client.go` fixes the field `channels []string` and
the signatures.  The Subscription Set is a set of topic names, uniqueness enforced. -/
structure subscribedChannels where
  channels : List String
  deriving DecidableEq, Repr

/-- Modelled from the spec: whether the topic is a member of the Subscription Set. -/
def subscribedChannels.contains (s : subscribedChannels) (channel : String) : Bool :=
  decide (channel ∈ s.channels)

/-- Modelled from the spec: add a topic to the Subscription Set; a topic that is already a
member is refused with an error and the set is left as it is. -/
def subscribedChannels.add (s : subscribedChannels) (channel : String) : subscribedChannels × Option Error :=
  if s.contains channel then (s, some (.New ("Channel " ++ channel ++ " already subscribed")))
  else (⟨s.channels ++ [channel]⟩, none)

/-- Modelled from the spec: remove a topic from the Subscription Set. -/
def subscribedChannels.remove (s : subscribedChannels) (channel : String) : subscribedChannels :=
  ⟨s.channels.filter (fun x => x != channel)⟩

/-- The struct `Client`, together with the part of the world its methods act on: the channels
made so far (`heap`) and the lines printed on the logger `Info`. -/
structure Client where
  ws : Conn
  Events : ChanId
  Stop : ChanId
  subscribedChannels : subscribedChannels
  binders : List (String × ChanId)
  PusherConn : Option ConnectionData
  AuthUrl : String
  AuthHeaders : List (String × String)
  heap : List Chan
  Info : List (List LogArg)
  deriving DecidableEq, Repr

/-- The call `Info.Println(args...)`. -/
def Client.println (c : Client) (args : List LogArg) : Client :=
  { c with Info := c.Info ++ [args] }

/-- The call `websocket.Message.Send(c.ws, frame)`, as far as the state goes: the frame is
handed to the transport.  What the call returns is the transport's answer and is an argument
of the operation that sends. -/
def Client.send (c : Client) (frame : String) : Client :=
  { c with ws := { c.ws with sent := c.ws.sent ++ [frame] } }

/-- A Go call either returns or panics. -/
inductive Outcome (α : Type) where
  | returned (a : α)
  | panicked (reason : String)

/-! ## client.go -/

/-- What `websocket.Message.Receive(c.ws, &message)` did: it stored a message, or it failed and
left `message` empty. -/
inductive Recv where
  | message (s : String)
  | failed (e : Error)
  deriving DecidableEq, Repr

/-- How one pass through the body of the loop of `listen` ends: at the bottom of the body, from
where the `for` starts the next pass (the body has no `break` and no `return`), or blocked in
the send on a bound channel. -/
inductive Iter where
  | next (c : Client)
  | blocked (c : Client) (ch : ChanId) (ev : Event)
  deriving DecidableEq, Repr

def pongFrame : String := "\x7b\"event\":\"pusher:pong\",\"data\":\"\x7b\x7d\"\x7d"

/-- The body of the loop of `Client.listen`, for one result of `Receive`. -/
def Client.listenIter (c : Client) (r : Recv) : Iter :=
  let message : String :=
    match r with
    | .message s => s
    | .failed _ => ""
  let c1 := c.println [.text message]
  match unmarshalEvent message with
  | .error err => .next (c1.println [.text "Listen error : ", .err err])
  | .ok event =>
    if event.Event = "pusher:ping" then .next (c1.send pongFrame)
    else if event.Event = "pusher:pong" then .next c1
    else if event.Event = "pusher:error" then
      .next (c1.println [.text "Event error recieved: ", .text event.Data])
    else
      match mapGet event.Event c1.binders with
      | none => .next c1
      | some ch =>
        match chanSend c1.heap ch event with
        | some heap1 => .next { c1 with heap := heap1 }
        | none => .blocked c1 ch event

/-- A run of `listen`: the state reached, how many times `Receive` was called, and whether the
loop is blocked in a channel send. -/
structure Run where
  client : Client
  receives : Nat
  blocked : Bool
  deriving DecidableEq, Repr

/-- The loop of `Client.listen`, unrolled `n` passes from the `i`-th call of `Receive` on;
`recv i` is what the `i`-th call of `Receive` does.  A pass that ends at the bottom of the body
is followed by the next one. -/
def Client.listenFrom (recv : Nat → Recv) : Nat → Nat → Client → Run
  | 0, i, c => ⟨c, i, false⟩
  | n + 1, i, c =>
    match c.listenIter (recv i) with
    | .next c1 => Client.listenFrom recv n (i + 1) c1
    | .blocked c1 _ _ => ⟨c1, i + 1, true⟩

/-- The first `n` passes of `Client.listen`. -/
def Client.listen (c : Client) (recv : Nat → Recv) (n : Nat) : Run :=
  Client.listenFrom recv n 0 c

/-- One pass of the loop of `Client.heartbeat`: a ping is handed to the transport and the
result of the send is dropped; the goroutine then sleeps `HEARTBEAT_RATE` seconds. -/
def Client.heartbeatIter (c : Client) : Client :=
  c.send "\x7b\"event\":\"pusher:ping\",\"data\":\"\x7b\x7d\"\x7d"

/-- What `req.Send(postVal).End()` returns to `authorize`: the body and the errors (`[]` for a
nil slice). -/
structure HttpResult where
  body : String
  errs : List Error
  deriving DecidableEq, Repr

/-- The method `Client.authorize`: the body of the authorizer, or the first error.  Reading
`c.PusherConn.SocketId` through a nil `PusherConn` panics.  The request (URL, headers, TLS
settings, form body) goes to the HTTP library; its answer is the argument `http`. -/
def Client.authorize (c : Client) (channel : String) (http : HttpResult) :
    Outcome (Client × Option String × Option Error) :=
  match c.PusherConn with
  | none => .panicked "invalid memory address or nil pointer dereference"
  | some conn =>
    let postVal := "socket_id=" ++ conn.SocketId ++ "&channel_name=" ++ channel
    let c1 := c.println [.text ("Authorizing token: " ++ c.AuthUrl ++ " : " ++ postVal)]
    match http.errs with
    | e :: _ => .returned (c1, none, some e)
    | [] => .returned (c1, some http.body, none)

/-- The method `Client.SubscribeWithAuthorization`; `sendErr` is what the websocket send
returns if it is reached. -/
def Client.SubscribeWithAuthorization (sc : Strconv) (c : Client) (channel : String)
    (http : HttpResult) (sendErr : Option Error) : Outcome (Client × Option Error) :=
  if c.subscribedChannels.contains channel then
    .returned (c, some (.New ("Channel " ++ channel ++ " already subscribed")))
  else
    match c.authorize channel http with
    | .panicked r => .panicked r
    | .returned (c1, _, some err) => .returned (c1.println [.err err], some err)
    | .returned (_, none, none) => .panicked "invalid memory address or nil pointer dereference"
    | .returned (c1, some data, none) =>
      match unmarshalMap sc data with
      | .error _ => .returned (c1, some (.New "Body Json Malformed"))
      | .ok none => .panicked "assignment to entry in nil map"
      | .ok (some tmpData) =>
        let channelData := marshalMap sc (mapSet "channel" (.string channel) tmpData)
        let eventData := "\x7b\"event\":\"pusher:subscribe\",\"data\":" ++ channelData ++ "\x7d"
        let c2 := (c1.println [.text eventData]).send eventData
        match sendErr with
        | some err => .returned (c2, some err)
        | none =>
          .returned ({ c2 with subscribedChannels := (c2.subscribedChannels.add channel).1 },
            (c2.subscribedChannels.add channel).2)

/-- The method `Client.Subscribe`; `sendErr` is what the websocket send returns if it is
reached. -/
def Client.Subscribe (c : Client) (channel : String) (sendErr : Option Error) : Client × Option Error :=
  if c.subscribedChannels.contains channel then
    (c, some (.New ("Channel " ++ channel ++ " already subscribed")))
  else
    let c1 := c.send ("\x7b\"event\":\"pusher:subscribe\",\"data\":\x7b\"channel\":\"" ++ channel ++ "\"\x7d\x7d")
    match sendErr with
    | some err => (c1, some err)
    | none =>
      ({ c1 with subscribedChannels := (c1.subscribedChannels.add channel).1 },
        (c1.subscribedChannels.add channel).2)

/-- The method `Client.Unsubscribe`. -/
def Client.Unsubscribe (c : Client) (channel : String) (sendErr : Option Error) : Client × Option Error :=
  if !c.subscribedChannels.contains channel then
    (c, some (.New ("Client isn\x27t subscrived to " ++ channel)))
  else
    let c1 := c.send ("\x7b\"event\":\"pusher:unsubscribe\",\"data\":\x7b\"channel\":\"" ++ channel ++ "\"\x7d\x7d")
    match sendErr with
    | some err => (c1, some err)
    | none => ({ c1 with subscribedChannels := c1.subscribedChannels.remove channel }, none)

/-- The method `Client.Bind`: the channel returned (`none` for nil) and the error. -/
def Client.Bind (cfg : Config) (c : Client) (evt : String) : Client × Option ChanId × Option Error :=
  match mapGet evt c.binders with
  | some _ => (c, none, some (.New ("Event " ++ evt ++ " already binded")))
  | none =>
    ({ c with heap := c.heap ++ [⟨cfg.EVENT_CHANNEL_BUFF_SIZE, []⟩],
              binders := mapSet evt c.heap.length c.binders },
      some c.heap.length, none)

/-- The method `Client.Unbind`. -/
def Client.Unbind (c : Client) (evt : String) : Client :=
  { c with binders := mapDelete evt c.binders }

/-- The method `Client.Close`. -/
def Client.Close (c : Client) : Client :=
  let c1 := c.println [.text "Closing"]
  { c1 with ws := { c1.ws with closed := true } }

/-- The function `NewClient`.  `dial` is the error of `websocket.Dial`, if any; `read` is what
`ws.Read(resp)` returns, an error or the bytes `resp[0:n]` of the first frame that it stored in
the buffer of 11000 bytes.  The result is the pair the function returns, `none` for nil.  The
two goroutines it starts are `heartbeat` and `listen`. -/
def NewClient (cfg : Config) (appKey : String) (dial : Option Error) (read : Except Error String) :
    Option Client × Option Error :=
  let url := "wss://ws.pusherapp.com:443/app/" ++ appKey ++ "?protocol=" ++ cfg.PROTOCOL_VERSION
  match dial with
  | some err => (none, some err)
  | none =>
    match read with
    | .error err => (none, some err)
    | .ok resp =>
      match unmarshalEvent resp with
      | .error err => (none, some err)
      | .ok event =>
        match unmarshalConnectionData event.Data with
        | .error err => (none, some err)
        | .ok connData =>
          if event.Event = "pusher:error" then
            match unmarshalEventError event.Data with
            | .error err => (none, some err)
            | .ok data =>
              (none, some (.New ("Pusher return error : code : " ++ toString data.code
                ++ ", message " ++ data.message)))
          else if event.Event = "pusher:connection_established" then
            (some
              { ws := ⟨[], false⟩
                Events := 0
                Stop := 1
                subscribedChannels := ⟨[]⟩
                binders := []
                PusherConn := connData
                AuthUrl := ""
                AuthHeaders := []
                heap := [⟨cfg.EVENT_CHANNEL_BUFF_SIZE, []⟩, ⟨0, []⟩]
                Info := [[.text ("Connecting: " ++ url)]] },
              none)
          else (none, some (.New "Ooooops something wrong happen"))

/-! ## What a frame says -/

mutual
/-- The JSON value an `interface{}` value stands for, which is what `json.Marshal` writes for
it: a `float64` as `strconv` formats it, everything else as it is. -/
def toJSON (sc : Strconv) : GoVal → JSON
  | .nil => .null
  | .bool b => .bool b
  | .float64 lit => .num (sc.formatFloat lit)
  | .string s => .str s
  | .slice xs => .arr (elemsJSON sc xs)
  | .map m => .obj (entriesJSON sc m)
/-- The JSON values of the elements of a slice. -/
def elemsJSON (sc : Strconv) : List GoVal → List JSON
  | [] => []
  | x :: xs => toJSON sc x :: elemsJSON sc xs
/-- The JSON members of the entries of a map. -/
def entriesJSON (sc : Strconv) : List (String × GoVal) → List (String × JSON)
  | [] => []
  | (k, v) :: rest => (k, toJSON sc v) :: entriesJSON sc rest
end

/-- A text that is one JSON number literal: it starts with a digit or a minus sign, and the
scanner takes all of it when one of the characters that `json.Marshal` puts after a value
follows. -/
def NumberText (cs : List Char) : Prop :=
  (∃ c t, cs = c :: t ∧ (c == '-' || isDigit c) = true)
  ∧ ∀ d rest, (d = ',' ∨ d = ']' ∨ d = '\x7d') → scanNumber (cs ++ d :: rest) = some (cs, d :: rest)

mutual
/-- What the embedding asks of `strconv` for a value: the text it formats each `float64` of
the value as is a JSON number literal. -/
def Writable (sc : Strconv) : GoVal → Prop
  | .float64 lit => NumberText (sc.formatFloat lit).data
  | .slice xs => WritableElems sc xs
  | .map m => WritableEntries sc m
  | _ => True
/-- Every element of a slice is `Writable`. -/
def WritableElems (sc : Strconv) : List GoVal → Prop
  | [] => True
  | x :: xs => Writable sc x ∧ WritableElems sc xs
/-- Every value of a map is `Writable`. -/
def WritableEntries (sc : Strconv) : List (String × GoVal) → Prop
  | [] => True
  | (_, v) :: rest => Writable sc v ∧ WritableEntries sc rest
end

/-- The input after a value that `json.Marshal` wrote inside an array or an object starts with
a comma or a closing bracket. -/
def Delim (rest : List Char) : Prop :=
  ∃ d r, rest = d :: r ∧ (d = ',' ∨ d = ']' ∨ d = '\x7d')

/-- The value of the last member with key `k` among the members of an object, which is the
one `json.Unmarshal` keeps. -/
def lastMember (k : String) : List (String × JSON) → Option JSON
  | [] => none
  | (k1, j) :: rest =>
    match lastMember k rest with
    | some x => some x
    | none => if k1 = k then some j else none

/-! ## The range of `float64` -/

/-- Exponentiation by squaring; `fuel` bounds the number of halvings. -/
def powFuel : Nat → Nat → Nat → Nat
  | 0, _, _ => 1
  | fuel + 1, b, e =>
    if e = 0 then 1
    else if e % 2 = 0 then powFuel fuel (b * b) (e / 2)
    else b * powFuel fuel (b * b) (e / 2)

def powNat (b e : Nat) : Nat := powFuel (e + 1) b e

def digitsVal (cs : List Char) : Nat :=
  cs.foldl (fun n c => n * 10 + (c.toNat - 48)) 0

/-- The magnitude of a JSON number literal as `m * 10 ^ e`: the digits before and after the
point read as one number `m`, and the exponent `e` less the number of digits after the point. -/
def decimalOf (lit : List Char) : Nat × Int :=
  let body := match lit with
    | c :: rest => if c == '-' then rest else lit
    | [] => []
  let ip := spanDigits body
  let fp : List Char × List Char := match ip.2 with
    | c :: rest => if c == '.' then spanDigits rest else ([], ip.2)
    | [] => ([], [])
  let ex : Int := match fp.2 with
    | c :: rest =>
      if c == 'e' || c == 'E' then
        match rest with
        | s :: rest2 =>
          if s == '-' then - (digitsVal (spanDigits rest2).1 : Int)
          else if s == '+' then (digitsVal (spanDigits rest2).1 : Int)
          else (digitsVal (spanDigits rest).1 : Int)
        | [] => 0
      else 0
    | [] => 0
  (digitsVal (ip.1 ++ fp.1), ex - fp.1.length)

/-- Whether `strconv.ParseFloat(lit, 64)` reports `ErrRange` for a JSON number literal: the
magnitude rounds to infinity, which under rounding to nearest even is the case from
`2 ^ 1024 - 2 ^ 970` on, half a unit in the last place above the largest `float64`.  (Go cuts
a mantissa of more than 800 digits; the comparison here is exact.) -/
def float64Overflows (lit : String) : Bool :=
  let d := decimalOf lit.data
  let t := powNat 2 1024 - powNat 2 970
  match d.2 with
  | .ofNat e => decide (t ≤ d.1 * powNat 10 e)
  | .negSucc e => decide (t * powNat 10 (e + 1) ≤ d.1)

/-! ## Sample values -/

/-- A `Strconv` for texts whose numbers are plain integers below `2 ^ 53`: none is out of
range and each is written back as it was read. -/
def plainStrconv : Strconv := ⟨fun _ => false, fun lit => lit⟩

/-- A `Strconv` with the range check of `ParseFloat`; its formatting is only right for
the literals `plainStrconv` is right for. -/
def rangeStrconv : Strconv := ⟨float64Overflows, fun lit => lit⟩

def sampleConfig : Config := ⟨"7", 120, 100⟩

/-- The handshake frame of a service that accepts the connection. -/
def establishedFrame : String :=
  "\x7b\"event\":\"pusher:connection_established\",\"data\":\"\x7b\\\"socket_id\\\":\\\"123.456\\\",\\\"activity_timeout\\\":120\x7d\"\x7d"

/-- The handshake frame of a service that refuses the connection. -/
def errorFrame : String :=
  "\x7b\"event\":\"pusher:error\",\"data\":\"\x7b\\\"code\\\":4001,\\\"message\\\":\\\"Over capacity\\\"\x7d\"\x7d"

/-- A session just after the handshake, with socket id `123.456`. -/
def session : Client :=
  { ws := ⟨[], false⟩
    Events := 0
    Stop := 1
    subscribedChannels := ⟨[]⟩
    binders := []
    PusherConn := some ⟨"123.456", 0⟩
    AuthUrl := ""
    AuthHeaders := []
    heap := [⟨100, []⟩, ⟨0, []⟩]
    Info := [] }

/-- A session with one binding, for `my-event`, whose channel has capacity 1 and holds one
envelope that no consumer has taken yet. -/
def fullSession : Client :=
  { session with
    binders := [("my-event", 2)]
    heap := [⟨100, []⟩, ⟨0, []⟩, ⟨1, [⟨"my-event", "first"⟩]⟩] }

/-- A session in which a consumer has bound the name `pusher:ping`. -/
def pingBoundSession : Client :=
  { session with
    binders := [("pusher:ping", 2)]
    heap := [⟨100, []⟩, ⟨0, []⟩, ⟨100, []⟩] }

/-- A session with one binding, for `my-event`, whose channel has room. -/
def boundSession : Client :=
  { session with
    binders := [("my-event", 2)]
    heap := [⟨100, []⟩, ⟨0, []⟩, ⟨100, []⟩] }

/-- A frame that carries `my-event`. -/
def myEventFrame : String := "\x7b\"event\":\"my-event\",\"data\":\"second\"\x7d"

/-- A ping of the service. -/
def pingFrame : String := "\x7b\"event\":\"pusher:ping\",\"data\":\"\x7b\x7d\"\x7d"

/-- A transport on which every receive fails, as after `Close`. -/
def closedTransport : Nat → Recv :=
  fun _ => .failed (.transport "use of closed network connection")

/-! ## Lemmas on maps and on the registry -/

theorem mapGet_mapSet_self {α : Type} (k : String) (v : α) (m : List (String × α)) :
    mapGet k (mapSet k v m) = some v := by
  induction m with
  | nil => simp [mapSet, mapGet]
  | cons p rest ih =>
    obtain ⟨k1, v1⟩ := p
    by_cases h1 : k1 = k
    · simp [mapSet, mapGet, h1]
    · by_cases h2 : ltChars k.data k1.data = true
      · simp [mapSet, mapGet, h1, h2]
      · simp [mapSet, mapGet, h1, h2, ih]

theorem mapGet_mapSet_ne {α : Type} (k k2 : String) (v : α) (m : List (String × α)) (h : k2 ≠ k) :
    mapGet k2 (mapSet k v m) = mapGet k2 m := by
  induction m with
  | nil => simp [mapSet, mapGet, Ne.symm h]
  | cons p rest ih =>
    obtain ⟨k1, v1⟩ := p
    by_cases h1 : k1 = k
    · have h3 : ¬ k1 = k2 := fun e => h (e.symm.trans h1)
      simp [mapSet, mapGet, h1, Ne.symm h, h1 ▸ h3]
    · by_cases h2 : ltChars k.data k1.data = true
      · simp [mapSet, mapGet, h1, h2, Ne.symm h]
      · by_cases h3 : k1 = k2
        · subst h3
          simp [mapSet, mapGet, h1, h2]
        · simp [mapSet, mapGet, h1, h2, h3, ih]

theorem contains_add (s : subscribedChannels) (channel : String) (h : s.contains channel = false) :
    s.add channel = (⟨s.channels ++ [channel]⟩, none) := by
  simp [subscribedChannels.add, h]

theorem contains_after_add (s : subscribedChannels) (channel : String) :
    (subscribedChannels.mk (s.channels ++ [channel])).contains channel = true := by
  simp [subscribedChannels.contains]

theorem unmarshalEvent_empty : unmarshalEvent "" = .error .SyntaxError := by rfl

/-! ## The scanner reads back what `json.Marshal` writes -/

theorem skipSpace_cons (c : Char) (cs : List Char) (h : isSpace c = false) :
    skipSpace (c :: cs) = c :: cs := by
  simp [skipSpace, h]

theorem hexVal_hexDigit : ∀ k, k < 16 → hexVal (hexDigit k) = some k := by
  decide

theorem char_eq_of_toNat (c : Char) (n : Nat) (h : c.toNat = n) : c = Char.ofNat n := by
  rw [← h, Char.ofNat_toNat]

/-- Scanning the text `json.Marshal` writes for one character gives that character back. -/
theorem scanString_quoteChar (c : Char) (tail acc : List Char) (f : Nat) :
    scanString (f + 1) (quoteChar c ++ tail) acc = scanString f tail (c :: acc) := by
  by_cases h1 : c = '"'
  · subst h1; rfl
  by_cases h2 : c = '\\'
  · subst h2; rfl
  by_cases h3 : c.toNat = 8
  · have := char_eq_of_toNat c 8 h3
    subst this; rfl
  by_cases h4 : c.toNat = 12
  · have := char_eq_of_toNat c 12 h4
    subst this; rfl
  by_cases h5 : c = '\n'
  · subst h5; rfl
  by_cases h6 : c = '\r'
  · subst h6; rfl
  by_cases h7 : c = '\t'
  · subst h7; rfl
  by_cases h8 : c.toNat < 0x20 ∨ c = '<' ∨ c = '>' ∨ c = '&'
  · have hlt : c.toNat < 256 := by
      rcases h8 with h | h | h | h
      · omega
      · subst h; decide
      · subst h; decide
      · subst h; decide
    have hq : quoteChar c = ['\\', 'u', '0', '0', hexDigit (c.toNat / 16), hexDigit (c.toNat % 16)] := by
      simp only [quoteChar]
      simp only [beq_iff_eq, h1, h2, h3, h4, h5, h6, h7, if_false, ↓reduceIte]
      have hc : (decide (c.toNat < 0x20) || c == '<' || c == '>' || c == '&') = true := by
        rcases h8 with h | h | h | h <;> simp [h]
      rw [if_pos hc]
    rw [hq]
    have ha := hexVal_hexDigit (c.toNat / 16) (by omega)
    have hb := hexVal_hexDigit (c.toNat % 16) (by omega)
    have hv : hex4 ('0' :: '0' :: hexDigit (c.toNat / 16) :: hexDigit (c.toNat % 16) :: tail)
        = some c.toNat := by
      have h0 : hexVal '0' = some 0 := by decide
      simp only [hex4, ha, hb, h0]
      congr 1
      omega
    have hs : isSurrogate c.toNat = false := by
      simp [isSurrogate]; omega
    simp only [List.cons_append, List.nil_append, scanString]
    simp [hv, hs, Char.ofNat_toNat]
  by_cases h9 : c.toNat = 0x2028
  · have := char_eq_of_toNat c _ h9
    subst this; rfl
  by_cases h10 : c.toNat = 0x2029
  · have := char_eq_of_toNat c _ h10
    subst this; rfl
  have hq : quoteChar c = [c] := by
    simp only [quoteChar]
    simp only [beq_iff_eq, h1, h2, h3, h4, h5, h6, h7, h9, h10, if_false, ↓reduceIte, or_self]
    have hc : (decide (c.toNat < 0x20) || c == '<' || c == '>' || c == '&') = false := by
      have := h8
      simp only [not_or] at this
      obtain ⟨a, b, d, e⟩ := this
      simp [a, b, d, e]
    simp [hc, h9, h10]
  have hge : ¬ c.toNat < 0x20 := fun h => h8 (Or.inl h)
  rw [hq]
  simp only [List.cons_append, List.nil_append, scanString]
  simp [h1, h2, hge]

theorem length_quoteChar_pos (c : Char) : 1 ≤ (quoteChar c).length := by
  unfold quoteChar
  split_ifs <;> simp

theorem length_quoteChars (s : List Char) : s.length ≤ (quoteChars s).length := by
  induction s with
  | nil => simp [quoteChars]
  | cons c s ih =>
    have := length_quoteChar_pos c
    simp only [quoteChars, List.length_append, List.length_cons]
    omega

/-- Scanning a string that `json.Marshal` quoted gives the string back. -/
theorem scanString_quoteChars (s : List Char) :
    ∀ (rest acc : List Char) (fuel : Nat), s.length < fuel →
      scanString fuel (quoteChars s ++ '"' :: rest) acc = some (acc.reverse ++ s, rest) := by
  induction s with
  | nil =>
    intro rest acc fuel h
    obtain ⟨f, rfl⟩ : ∃ f, fuel = f + 1 := ⟨fuel - 1, by omega⟩
    simp [quoteChars, scanString]
  | cons c s ih =>
    intro rest acc fuel h
    obtain ⟨f, rfl⟩ : ∃ f, fuel = f + 1 := ⟨fuel - 1, by omega⟩
    have hf : s.length < f := by simpa using h
    rw [quoteChars, List.append_assoc, scanString_quoteChar, ih rest (c :: acc) f hf]
    simp

theorem digit_ne (c x : Char) (h : isDigit c = true) (hx : isDigit x = false) : (c == x) = false := by
  by_cases e : c = x
  · subst e
    rw [h] at hx
    cases hx
  · simpa using e

theorem number_head (c : Char) (h : (c == '-' || isDigit c) = true) :
    isSpace c = false ∧ (c == '\x7b') = false ∧ (c == '[') = false ∧ (c == '"') = false := by
  rcases Bool.or_eq_true _ _ |>.mp h with h1 | h1
  · have : c = '-' := by simpa using h1
    subst this
    decide
  · refine ⟨?_, digit_ne c _ h1 (by decide), digit_ne c _ h1 (by decide), digit_ne c _ h1 (by decide)⟩
    simp only [isSpace, digit_ne c _ h1 (by decide : isDigit ' ' = false),
      digit_ne c _ h1 (by decide : isDigit '\t' = false),
      digit_ne c _ h1 (by decide : isDigit '\n' = false),
      digit_ne c _ h1 (by decide : isDigit '\r' = false)]
    rfl

theorem parseValue_null (f : Nat) (r : List Char) :
    parseValue (f + 1) ('n' :: 'u' :: 'l' :: 'l' :: r) = some (.null, r) := by rfl

theorem parseValue_true (f : Nat) (r : List Char) :
    parseValue (f + 1) ('t' :: 'r' :: 'u' :: 'e' :: r) = some (.bool true, r) := by rfl

theorem parseValue_false (f : Nat) (r : List Char) :
    parseValue (f + 1) ('f' :: 'a' :: 'l' :: 's' :: 'e' :: r) = some (.bool false, r) := by rfl

theorem parseValue_obj_empty (f : Nat) (r : List Char) :
    parseValue (f + 1) ('\x7b' :: '\x7d' :: r) = some (.obj [], r) := by rfl

theorem parseValue_obj_members (f : Nat) (r : List Char) :
    parseValue (f + 1) ('\x7b' :: '"' :: r) = parseMembers f ('"' :: r) [] := by rfl

theorem parseValue_arr_empty (f : Nat) (r : List Char) :
    parseValue (f + 1) ('[' :: ']' :: r) = some (.arr [], r) := by rfl

theorem parseValue_arr_elems (f : Nat) (c : Char) (r : List Char) (hs : isSpace c = false)
    (hc : (c == ']') = false) :
    parseValue (f + 1) ('[' :: c :: r) = parseElems f (c :: r) [] := by
  rw [parseValue, skipSpace_cons _ _ (by decide)]
  simp only [skipSpace_cons _ _ hs, hc]
  rfl

theorem parseValue_str (f : Nat) (r : List Char) :
    parseValue (f + 1) ('"' :: r)
      = match scanString (r.length + 1) r [] with
        | some (s, rest2) => some (JSON.str (String.mk s), rest2)
        | none => none := by rfl

theorem parseValue_num (f : Nat) (c : Char) (r : List Char) (h : (c == '-' || isDigit c) = true) :
    parseValue (f + 1) (c :: r)
      = match scanNumber (c :: r) with
        | some (n, rest2) => some (JSON.num (String.mk n), rest2)
        | none => none := by
  have hh := number_head c h
  rw [parseValue, skipSpace_cons _ _ hh.1]
  simp only [hh.2.1, hh.2.2.1, hh.2.2.2, h]
  rfl

theorem parseElems_step (f : Nat) (cs : List Char) (acc : List JSON) :
    parseElems (f + 1) cs acc
      = match parseValue f cs with
        | none => none
        | some (v, rest) =>
          match skipSpace rest with
          | d :: rest2 =>
            if d == ',' then parseElems f rest2 (v :: acc)
            else if d == ']' then some (JSON.arr (v :: acc).reverse, rest2)
            else none
          | [] => none := by rfl

theorem parseMembers_step (f : Nat) (r : List Char) (acc : List (String × JSON)) :
    parseMembers (f + 1) ('"' :: r) acc
      = match scanString (r.length + 1) r [] with
        | none => none
        | some (k, rest2) =>
          match skipSpace rest2 with
          | col :: rest3 =>
            if col == ':' then
              match parseValue f rest3 with
              | none => none
              | some (v, rest4) =>
                match skipSpace rest4 with
                | d :: rest5 =>
                  if d == ',' then parseMembers f rest5 ((String.mk k, v) :: acc)
                  else if d == '\x7d' then some (JSON.obj ((String.mk k, v) :: acc).reverse, rest5)
                  else none
                | [] => none
            else none
          | [] => none := by rfl

theorem number_not_close (c : Char) (h : (c == '-' || isDigit c) = true) : (c == ']') = false := by
  rcases Bool.or_eq_true _ _ |>.mp h with h1 | h1
  · have : c = '-' := by simpa using h1
    subst this
    decide
  · exact digit_ne c _ h1 (by decide)

theorem marshal_head (sc : Strconv) (v : GoVal) (hw : Writable sc v) :
    ∃ c cs, marshal sc v = c :: cs ∧ isSpace c = false ∧ (c == ']') = false := by
  cases v with
  | nil => exact ⟨'n', ['u', 'l', 'l'], rfl, by decide, by decide⟩
  | bool b =>
    cases b
    · exact ⟨'f', ['a', 'l', 's', 'e'], rfl, by decide, by decide⟩
    · exact ⟨'t', ['r', 'u', 'e'], rfl, by decide, by decide⟩
  | float64 lit =>
    simp only [Writable] at hw
    obtain ⟨⟨c, t, hct, hh⟩, _⟩ := hw
    exact ⟨c, t, by rw [marshal, hct], (number_head c hh).1, number_not_close c hh⟩
  | string s => exact ⟨'"', _, by rw [marshal, quote], by decide, by decide⟩
  | slice xs => exact ⟨'[', _, by rw [marshal], by decide, by decide⟩
  | map m => exact ⟨'\x7b', _, by rw [marshal], by decide, by decide⟩

theorem String_mk_data (s : String) : String.mk s.data = s := by
  cases s; rfl

theorem marshalElems_single (sc : Strconv) (x : GoVal) (tail : List Char) :
    marshalElems sc [x] ++ tail = marshal sc x ++ tail := by
  rw [marshalElems]

theorem marshalElems_cons (sc : Strconv) (x y : GoVal) (ys : List GoVal) (tail : List Char) :
    marshalElems sc (x :: y :: ys) ++ tail
      = marshal sc x ++ (',' :: (marshalElems sc (y :: ys) ++ tail)) := by
  rw [marshalElems]
  simp [List.append_assoc]

theorem marshalEntries_single (sc : Strconv) (k : String) (v : GoVal) (tail : List Char) :
    marshalEntries sc [(k, v)] ++ tail
      = '"' :: (quoteChars k.data ++ '"' :: ':' :: (marshal sc v ++ tail)) := by
  rw [marshalEntries]
  simp [quote, List.append_assoc]

theorem marshalEntries_cons (sc : Strconv) (k : String) (v : GoVal) (p : String × GoVal)
    (m : List (String × GoVal)) (tail : List Char) :
    marshalEntries sc ((k, v) :: p :: m) ++ tail
      = '"' :: (quoteChars k.data ++ '"' :: ':'
          :: (marshal sc v ++ (',' :: (marshalEntries sc (p :: m) ++ tail)))) := by
  rw [marshalEntries]
  simp [quote, List.append_assoc]

/-- The scanner reads back what `json.Marshal` writes: a value, the elements of a slice and
the entries of a map, whenever the fuel exceeds the length of the text. -/
theorem parse_marshal (sc : Strconv) : ∀ f : Nat,
    (∀ v rest, Writable sc v → (marshal sc v).length < f → Delim rest →
      parseValue f (marshal sc v ++ rest) = some (toJSON sc v, rest))
    ∧ (∀ x xs rest acc, WritableElems sc (x :: xs) →
        (marshalElems sc (x :: xs)).length + 1 < f →
        parseElems f (marshalElems sc (x :: xs) ++ ']' :: rest) acc
          = some (.arr (acc.reverse ++ elemsJSON sc (x :: xs)), rest))
    ∧ (∀ k v m rest acc, WritableEntries sc ((k, v) :: m) →
        (marshalEntries sc ((k, v) :: m)).length + 1 < f →
        parseMembers f (marshalEntries sc ((k, v) :: m) ++ '\x7d' :: rest) acc
          = some (.obj (acc.reverse ++ entriesJSON sc ((k, v) :: m)), rest)) := by
  intro f
  induction f with
  | zero =>
    refine ⟨?_, ?_, ?_⟩
    · intro v rest _ h; exact absurd h (Nat.not_lt_zero _)
    · intro x xs rest acc _ h; exact absurd h (Nat.not_lt_zero _)
    · intro k v m rest acc _ h; exact absurd h (Nat.not_lt_zero _)
  | succ f ih =>
    obtain ⟨ihP, ihQ, ihR⟩ := ih
    refine ⟨?_, ?_, ?_⟩
    · intro v rest hw hlen hd
      cases v with
      | nil => exact parseValue_null f rest
      | bool b =>
        cases b
        · exact parseValue_false f rest
        · exact parseValue_true f rest
      | float64 lit =>
        simp only [Writable] at hw
        obtain ⟨⟨c, t, hct, hh⟩, hscan⟩ := hw
        obtain ⟨d, r, rfl, hd2⟩ := hd
        have hs := hscan d r hd2
        rw [hct] at hs
        rw [marshal, hct, List.cons_append, parseValue_num f c _ hh]
        rw [List.cons_append] at hs
        rw [hs]
        simp only [toJSON]
        rw [← hct, String_mk_data]
      | string s =>
        rw [marshal, quote, List.cons_append, List.append_assoc, List.singleton_append, parseValue_str,
          scanString_quoteChars s.data rest [] _
            (by
              have := length_quoteChars s.data
              simp only [List.length_append, List.length_cons]
              omega)]
        simp [toJSON, String_mk_data]
      | slice xs =>
        cases xs with
        | nil => exact parseValue_arr_empty f rest
        | cons x xs =>
          simp only [WritableElems, Writable] at hw
          obtain ⟨c, cs, hc, hsp, hne⟩ := marshal_head sc x hw.1
          have hlen2 : (marshalElems sc (x :: xs)).length + 1 < f := by
            rw [marshal] at hlen
            simp only [List.length_cons, List.length_append, List.length_nil] at hlen
            omega
          have hhead : ∃ cs2, marshalElems sc (x :: xs) = c :: cs2 := by
            cases xs with
            | nil => exact ⟨cs, by rw [marshalElems, hc]⟩
            | cons y ys => exact ⟨cs ++ (',' :: marshalElems sc (y :: ys)), by rw [marshalElems, hc]; rfl⟩
          obtain ⟨cs2, hcs2⟩ := hhead
          have hq := ihQ x xs rest [] (by simp only [WritableElems]; exact hw) hlen2
          rw [marshal, List.cons_append, List.append_assoc, List.singleton_append]
          rw [hcs2] at hq ⊢
          rw [List.cons_append, parseValue_arr_elems f c _ hsp hne]
          rw [List.cons_append] at hq
          rw [hq]
          simp [toJSON]
      | map m =>
        cases m with
        | nil => exact parseValue_obj_empty f rest
        | cons p m =>
          obtain ⟨k, v⟩ := p
          simp only [Writable] at hw
          have hlen2 : (marshalEntries sc ((k, v) :: m)).length + 1 < f := by
            rw [marshal] at hlen
            simp only [List.length_cons, List.length_append, List.length_nil] at hlen
            omega
          have hhead : ∃ cs2, marshalEntries sc ((k, v) :: m) = '"' :: cs2 := by
            cases m with
            | nil => exact ⟨_, by rw [marshalEntries, quote]; rfl⟩
            | cons y ys => exact ⟨_, by rw [marshalEntries, quote]; rfl⟩
          obtain ⟨cs2, hcs2⟩ := hhead
          have hr := ihR k v m rest [] hw hlen2
          rw [marshal, List.cons_append, List.append_assoc, List.singleton_append]
          rw [hcs2] at hr ⊢
          rw [List.cons_append, parseValue_obj_members]
          rw [List.cons_append] at hr
          rw [hr]
          simp [toJSON]
    · intro x xs rest acc hw hlen
      simp only [WritableElems] at hw
      obtain ⟨c0, cs0, hc0, _, _⟩ := marshal_head sc x hw.1
      have hpos : 1 ≤ (marshal sc x).length := by rw [hc0]; simp
      rw [parseElems_step]
      cases xs with
      | nil =>
        have hl : (marshal sc x).length < f := by
          rw [marshalElems] at hlen
          omega
        rw [marshalElems_single,
          ihP x (']' :: rest) hw.1 hl ⟨']', rest, rfl, Or.inr (Or.inl rfl)⟩]
        simp only [skipSpace_cons ']' rest (by decide)]
        simp [elemsJSON]
      | cons y ys =>
        have hl0 : (marshal sc x).length + (marshalElems sc (y :: ys)).length + 2 < f + 1 := by
          rw [marshalElems] at hlen
          simp only [List.length_append, List.length_cons] at hlen
          omega
        rw [marshalElems_cons,
          ihP x _ hw.1 (by omega) ⟨',', _, rfl, Or.inl rfl⟩]
        simp only [skipSpace_cons ',' _ (by decide)]
        have hq := ihQ y ys rest (toJSON sc x :: acc) hw.2 (by omega)
        simp only [beq_self_eq_true, if_true]
        rw [hq]
        simp [elemsJSON]
    · intro k v m rest acc hw hlen
      simp only [WritableEntries] at hw
      obtain ⟨c0, cs0, hc0, _, _⟩ := marshal_head sc v hw.1
      have hpos : 1 ≤ (marshal sc v).length := by rw [hc0]; simp
      have hkey : ∀ X : List Char,
          scanString ((quoteChars k.data ++ '"' :: X).length + 1) (quoteChars k.data ++ '"' :: X) []
            = some (k.data, X) := by
        intro X
        have := scanString_quoteChars k.data X []
          ((quoteChars k.data ++ '"' :: X).length + 1)
          (by
            have := length_quoteChars k.data
            simp only [List.length_append, List.length_cons]
            omega)
        simpa using this
      cases m with
      | nil =>
        have hl : (marshal sc v).length < f := by
          rw [marshalEntries] at hlen
          simp only [List.length_append, List.length_cons] at hlen
          omega
        rw [marshalEntries_single, parseMembers_step, hkey]
        simp only [skipSpace_cons ':' _ (by decide), beq_self_eq_true, if_true]
        rw [ihP v ('\x7d' :: rest) hw.1 hl ⟨'\x7d', rest, rfl, Or.inr (Or.inr rfl)⟩]
        simp only [skipSpace_cons '\x7d' rest (by decide)]
        simp [entriesJSON, String_mk_data]
      | cons p m =>
        obtain ⟨k2, v2⟩ := p
        have hl0 : (marshal sc v).length + (marshalEntries sc ((k2, v2) :: m)).length + 2 < f + 1 := by
          rw [marshalEntries] at hlen
          simp only [List.length_append, List.length_cons] at hlen
          omega
        rw [marshalEntries_cons, parseMembers_step, hkey]
        simp only [skipSpace_cons ':' _ (by decide), beq_self_eq_true, if_true]
        rw [ihP v _ hw.1 (by omega) ⟨',', _, rfl, Or.inl rfl⟩]
        simp only [skipSpace_cons ',' _ (by decide), beq_self_eq_true, if_true]
        have hr := ihR k2 v2 m rest ((String.mk k.data, toJSON sc v) :: acc) hw.2 (by omega)
        rw [hr]
        simp [entriesJSON, String_mk_data]

/-- The text `json.Marshal` writes for a non-empty map is a JSON text, the object with the
entries of the map. -/
theorem parseJSON_marshal_map (sc : Strconv) (k : String) (v : GoVal) (m : List (String × GoVal))
    (hw : WritableEntries sc ((k, v) :: m)) :
    parseJSON (String.mk (marshal sc (.map ((k, v) :: m))))
      = some (.obj (entriesJSON sc ((k, v) :: m))) := by
  have hhead : ∃ cs2, marshalEntries sc ((k, v) :: m) = '"' :: cs2 := by
    cases m with
    | nil => exact ⟨_, by rw [marshalEntries, quote]; rfl⟩
    | cons y ys => exact ⟨_, by rw [marshalEntries, quote]; rfl⟩
  obtain ⟨cs2, hcs2⟩ := hhead
  have hr := (parse_marshal sc (2 * (marshal sc (.map ((k, v) :: m))).length + 1)).2.2 k v m [] [] hw
    (by
      rw [marshal]
      simp only [List.length_cons, List.length_append, List.length_nil]
      omega)
  have hdata : (String.mk (marshal sc (.map ((k, v) :: m)))).data
      = '\x7b' :: (marshalEntries sc ((k, v) :: m) ++ ['\x7d']) := by
    show marshal sc (.map ((k, v) :: m)) = _
    rw [marshal]
  have hlen : (String.mk (marshal sc (.map ((k, v) :: m)))).length
      = (marshal sc (.map ((k, v) :: m))).length := rfl
  unfold parseJSON
  rw [hlen, hdata]
  rw [hcs2] at hr ⊢
  rw [List.cons_append, parseValue_obj_members]
  rw [List.cons_append] at hr
  rw [hr]
  simp [skipSpace]

theorem marshal_event_data (sc : Strconv) (s : String) (v : GoVal) :
    marshal sc (.map [("event", .string s), ("data", v)])
      = '\x7b' :: '"' :: (quoteChars "event".data ++ '"' :: ':'
          :: (quote s ++ (',' :: '"'
            :: (quoteChars "data".data ++ '"' :: ':' :: (marshal sc v ++ ['\x7d']))))) := by
  conv_lhs => rw [marshal, marshalEntries_cons, marshalEntries_single]
  simp only [marshal]

/-- The frame `SubscribeWithAuthorization` builds with `Sprintf` is the text `json.Marshal`
would write for the map with the entries `event` and `data`. -/
theorem subscribe_frame_eq (sc : Strconv) (m : List (String × GoVal)) :
    "\x7b\"event\":\"pusher:subscribe\",\"data\":" ++ marshalMap sc m ++ "\x7d"
      = String.mk (marshal sc (.map [("event", .string "pusher:subscribe"), ("data", .map m)])) := by
  apply String.ext
  rw [marshal_event_data]
  simp only [String.data_append, marshalMap]
  rfl

theorem char_toNat_inj (a b : Char) (h : a.toNat = b.toNat) : a = b := by
  rw [← Char.ofNat_toNat a, ← Char.ofNat_toNat b, h]

theorem ltChars_irrefl (a : List Char) : ltChars a a = false := by
  induction a with
  | nil => rfl
  | cons c cs ih => simp [ltChars, ih]

theorem ltChars_trans : ∀ (a b c : List Char), ltChars a b = true → ltChars b c = true →
    ltChars a c = true := by
  intro a
  induction a with
  | nil =>
    intro b c h1 h2
    cases b with
    | nil => simp [ltChars] at h1
    | cons y ys =>
      cases c with
      | nil => simp [ltChars] at h2
      | cons z zs => simp [ltChars]
  | cons x xs ih =>
    intro b c h1 h2
    cases b with
    | nil => simp [ltChars] at h1
    | cons y ys =>
      cases c with
      | nil => simp [ltChars] at h2
      | cons z zs =>
        simp only [ltChars] at h1 h2 ⊢
        by_cases hxy : x.toNat < y.toNat
        · by_cases hyz : y.toNat < z.toNat
          · have : x.toNat < z.toNat := by omega
            simp [this]
          · by_cases hzy : z.toNat < y.toNat
            · simp [hyz, hzy] at h2
            · have : x.toNat < z.toNat := by omega
              simp [this]
        · by_cases hyx : y.toNat < x.toNat
          · simp [hxy, hyx] at h1
          · simp only [hxy, hyx, if_false] at h1
            by_cases hyz : y.toNat < z.toNat
            · have : x.toNat < z.toNat := by omega
              simp [this]
            · by_cases hzy : z.toNat < y.toNat
              · simp [hyz, hzy] at h2
              · simp only [hyz, hzy, if_false] at h2
                have e1 : ¬ x.toNat < z.toNat := by omega
                have e2 : ¬ z.toNat < x.toNat := by omega
                simp only [e1, e2, if_false]
                exact ih ys zs h1 h2

theorem ltChars_connex : ∀ (a b : List Char), ltChars a b = false → a ≠ b → ltChars b a = true := by
  intro a
  induction a with
  | nil =>
    intro b h hne
    cases b with
    | nil => exact absurd rfl hne
    | cons y ys => simp [ltChars] at h
  | cons x xs ih =>
    intro b h hne
    cases b with
    | nil => simp [ltChars]
    | cons y ys =>
      simp only [ltChars] at h ⊢
      by_cases hxy : x.toNat < y.toNat
      · simp [hxy] at h
      · by_cases hyx : y.toNat < x.toNat
        · simp [hyx]
        · simp only [hxy, hyx, if_false] at h ⊢
          have hx : x = y := char_toNat_inj x y (by omega)
          subst hx
          exact ih ys h (fun e => hne (by rw [e]))

theorem mem_mapSet {α : Type} (k : String) (v : α) (m : List (String × α)) :
    ∀ p ∈ mapSet k v m, p.1 = k ∨ p ∈ m := by
  induction m with
  | nil =>
    intro p hp
    simp only [mapSet, List.mem_singleton] at hp
    exact Or.inl (by rw [hp])
  | cons q rest ih =>
    obtain ⟨k1, v1⟩ := q
    intro p hp
    simp only [mapSet] at hp
    split_ifs at hp with h1 h2
    · rcases List.mem_cons.mp hp with h | h
      · exact Or.inl (by rw [h])
      · exact Or.inr (List.mem_cons_of_mem _ h)
    · rcases List.mem_cons.mp hp with h | h
      · exact Or.inl (by rw [h])
      · exact Or.inr h
    · rcases List.mem_cons.mp hp with h | h
      · exact Or.inr (by rw [h]; exact List.mem_cons_self _ _)
      · rcases ih p h with h3 | h3
        · exact Or.inl h3
        · exact Or.inr (List.mem_cons_of_mem _ h3)

/-- Writing an entry keeps a map in the order of its keys. -/
theorem mapSet_sorted {α : Type} (k : String) (v : α) (m : List (String × α))
    (hm : m.Pairwise (fun a b => ltChars a.1.data b.1.data = true)) :
    (mapSet k v m).Pairwise (fun a b => ltChars a.1.data b.1.data = true) := by
  induction m with
  | nil => simp [mapSet]
  | cons q rest ih =>
    obtain ⟨k1, v1⟩ := q
    obtain ⟨hhead, htail⟩ := List.pairwise_cons.mp hm
    simp only [mapSet]
    split_ifs with h1 h2
    · subst h1
      exact List.pairwise_cons.mpr ⟨hhead, htail⟩
    · refine List.pairwise_cons.mpr ⟨?_, hm⟩
      intro p hp
      rcases List.mem_cons.mp hp with h | h
      · rw [h]; exact h2
      · exact ltChars_trans _ _ _ h2 (hhead p h)
    · refine List.pairwise_cons.mpr ⟨?_, ih htail⟩
      intro p hp
      rcases mem_mapSet k v rest p hp with h | h
      · rw [h]
        refine ltChars_connex _ _ (by simpa using h2) ?_
        intro e
        exact h1 (String.ext e).symm
      · exact hhead p h

theorem sorted_keys_nodup {α : Type} (m : List (String × α))
    (hm : m.Pairwise (fun a b => ltChars a.1.data b.1.data = true)) :
    (m.map Prod.fst).Nodup := by
  rw [List.Nodup, List.pairwise_map]
  refine hm.imp ?_
  intro a b h e
  rw [e, ltChars_irrefl] at h
  cases h

theorem decodeEntries_sorted (sc : Strconv) (kvs : List (String × JSON)) :
    ∀ (m M : List (String × GoVal)),
      m.Pairwise (fun a b => ltChars a.1.data b.1.data = true) →
      decodeEntries sc kvs m = .ok M →
      M.Pairwise (fun a b => ltChars a.1.data b.1.data = true) := by
  induction kvs with
  | nil =>
    intro m M hm h
    rw [decodeEntries] at h
    cases h
    exact hm
  | cons p rest ih =>
    obtain ⟨k, j⟩ := p
    intro m M hm h
    rw [decodeEntries] at h
    cases hd : decodeInterface sc j with
    | error e => rw [hd] at h; cases h
    | ok v =>
      rw [hd] at h
      exact ih _ _ (mapSet_sorted k v m hm) h

/-- The map `json.Unmarshal` builds has its keys in increasing order, so no key twice. -/
theorem unmarshalMap_sorted (sc : Strconv) (body : String) (M : List (String × GoVal))
    (h : unmarshalMap sc body = .ok (some M)) :
    M.Pairwise (fun a b => ltChars a.1.data b.1.data = true) := by
  unfold unmarshalMap at h
  split at h
  · cases h
  · cases h
  · rename_i kvs _
    cases hd : decodeEntries sc kvs [] with
    | error e => rw [hd] at h; cases h
    | ok m =>
      rw [hd] at h
      cases h
      exact decodeEntries_sorted sc kvs [] _ List.Pairwise.nil hd
  · cases h

theorem entriesJSON_keys (sc : Strconv) (m : List (String × GoVal)) :
    (entriesJSON sc m).map Prod.fst = m.map Prod.fst := by
  induction m with
  | nil => simp [entriesJSON]
  | cons p rest ih =>
    obtain ⟨k, v⟩ := p
    simp [entriesJSON, ih]

theorem mapGet_entriesJSON (sc : Strconv) (k : String) (m : List (String × GoVal)) :
    mapGet k (entriesJSON sc m) = (mapGet k m).map (toJSON sc) := by
  induction m with
  | nil => simp [entriesJSON, mapGet]
  | cons p rest ih =>
    obtain ⟨k1, v⟩ := p
    by_cases h : k1 = k
    · simp [entriesJSON, mapGet, h]
    · simp [entriesJSON, mapGet, h, ih]

theorem WritableEntries_mapSet (sc : Strconv) (k : String) (v : GoVal) (m : List (String × GoVal))
    (hv : Writable sc v) (hm : WritableEntries sc m) : WritableEntries sc (mapSet k v m) := by
  induction m with
  | nil => simp only [mapSet, WritableEntries]; exact ⟨hv, trivial⟩
  | cons p rest ih =>
    obtain ⟨k1, v1⟩ := p
    simp only [WritableEntries] at hm
    simp only [mapSet]
    split_ifs with h1 h2
    · simp only [WritableEntries]; exact ⟨hv, hm.2⟩
    · simp only [WritableEntries]; exact ⟨hv, hm.1, hm.2⟩
    · simp only [WritableEntries]; exact ⟨hm.1, ih hm.2⟩

/-- The entry of a decoded map under a key is the decoding of the last member with that key. -/
theorem decodeEntries_get (sc : Strconv) (k : String) (kvs : List (String × JSON)) :
    ∀ (m M : List (String × GoVal)), decodeEntries sc kvs m = .ok M →
      (lastMember k kvs = none → mapGet k M = mapGet k m)
      ∧ (∀ j, lastMember k kvs = some j →
          ∃ v, decodeInterface sc j = .ok v ∧ mapGet k M = some v) := by
  induction kvs with
  | nil =>
    intro m M h
    rw [decodeEntries] at h
    cases h
    exact ⟨fun _ => rfl, fun j hj => by simp [lastMember] at hj⟩
  | cons p rest ih =>
    obtain ⟨k1, j1⟩ := p
    intro m M h
    rw [decodeEntries] at h
    cases hd : decodeInterface sc j1 with
    | error e => rw [hd] at h; cases h
    | ok v1 =>
      rw [hd] at h
      obtain ⟨ih1, ih2⟩ := ih _ _ h
      cases hl : lastMember k rest with
      | some x =>
        refine ⟨fun hn => by simp [lastMember, hl] at hn, fun j hj => ?_⟩
        simp only [lastMember, hl] at hj
        cases hj
        exact ih2 x hl
      | none =>
        by_cases hk : k1 = k
        · refine ⟨fun hn => by simp [lastMember, hl, hk] at hn, fun j hj => ?_⟩
          simp only [lastMember, hl, hk, if_true] at hj
          cases hj
          refine ⟨v1, hd, ?_⟩
          rw [ih1 hl, hk, mapGet_mapSet_self]
        · refine ⟨fun _ => ?_, fun j hj => by simp [lastMember, hl, hk] at hj⟩
          rw [ih1 hl, mapGet_mapSet_ne _ _ _ _ (fun e => hk e.symm)]

theorem unmarshalMap_object (sc : Strconv) (body : String) (M : List (String × GoVal))
    (kvs : List (String × JSON))
    (h : unmarshalMap sc body = .ok (some M)) (hj : parseJSON body = some (.obj kvs)) :
    decodeEntries sc kvs [] = .ok M := by
  simp only [unmarshalMap, hj] at h
  cases hd : decodeEntries sc kvs [] with
  | error e => rw [hd] at h; cases h
  | ok m => rw [hd] at h; cases h; rfl

/-! ## The handshake -/

/-- No field of `eventError` is exported, so `encoding/json` decodes into none of them. -/
theorem eventError_has_no_json_field : jsonFields eventError.fields = [] := by rfl

/-- The tag of `ActivityTimeout` has no `json` entry, so the field is decoded under its Go
name and the key `activity_timeout` does not select it. -/
theorem ConnectionData_json_names :
    (jsonFields ConnectionData.fields).map (fun p => p.1) = ["socket_id", "ActivityTimeout"] := by
  rfl

/-- With no field to decode into, every member of an object is skipped. -/
theorem decodeMembers_no_field (kvs : List (String × JSON)) (sv : StructVal) :
    decodeMembers [] kvs sv = .ok sv := by
  induction kvs with
  | nil => rfl
  | cons p rest ih =>
    obtain ⟨k, j⟩ := p
    simp [decodeMembers, findField, ih]

/-- Whatever object the data of a `pusher:error` frame is, `eventError` comes back with its
zero values. -/
theorem unmarshalEventError_object (data : String) (kvs : List (String × JSON))
    (h : parseJSON data = some (.obj kvs)) :
    unmarshalEventError data = .ok ⟨"", 0⟩ := by
  simp only [unmarshalEventError, h, decodeStruct, eventError_has_no_json_field,
    decodeMembers_no_field]
  rfl

/-- The defect behind C1 does not depend on the payload: for every code `c` and message `m`,
when the first frame decodes to the Envelope `pusher:error` whose data is the JSON object
`{"code":c,"message":m}`, `NewClient` returns no client and the error with code 0 and an
empty message. -/
theorem NewClient_error_frame_any_payload (cfg : Config) (appKey resp data c m : String)
    (hresp : unmarshalEvent resp = .ok ⟨"pusher:error", data⟩)
    (hdata : parseJSON data = some (.obj [("code", .num c), ("message", .str m)])) :
    NewClient cfg appKey none (.ok resp)
      = (none, some (.New "Pusher return error : code : 0, message ")) := by
  have hconn : unmarshalConnectionData data = .ok (some ⟨"", 0⟩) := by
    simp only [unmarshalConnectionData, hdata]
    rfl
  simp only [NewClient, hresp, hconn, unmarshalEventError_object data _ hdata]
  rfl

/-- The defect behind C2 does not depend on the payload: for every socket id `s` and every
number literal `n`, when the first frame decodes to the Envelope
`pusher:connection_established` whose data is the JSON object
`{"socket_id":s,"activity_timeout":n}`, the session `NewClient` returns has socket id `s` and
activity timeout 0. -/
theorem NewClient_established_frame_any_payload (cfg : Config) (appKey resp data s n : String)
    (hresp : unmarshalEvent resp = .ok ⟨"pusher:connection_established", data⟩)
    (hdata : parseJSON data = some (.obj [("socket_id", .str s), ("activity_timeout", .num n)])) :
    ∃ c : Client, NewClient cfg appKey none (.ok resp) = (some c, none)
      ∧ c.PusherConn = some ⟨s, 0⟩
      ∧ c.subscribedChannels.channels = []
      ∧ c.binders = [] := by
  have hconn : unmarshalConnectionData data = .ok (some ⟨s, 0⟩) := by
    simp only [unmarshalConnectionData, hdata]
    rfl
  simp only [NewClient, hresp, hconn]
  exact ⟨_, rfl, rfl, rfl, rfl⟩

/-- C1, evaluated on the code: on the handshake frame with event `pusher:error` and data
`{"code":4001,"message":"Over capacity"}`, `NewClient` returns no client and an error, but the
error carries code 0 and an empty message, not code 4001 and the message `Over capacity`. -/
theorem NewClient_error_frame_loses_code_and_message (cfg : Config) (appKey : String) :
    unmarshalEvent errorFrame
        = .ok ⟨"pusher:error", "\x7b\"code\":4001,\"message\":\"Over capacity\"\x7d"⟩
    ∧ NewClient cfg appKey none (.ok errorFrame)
        = (none, some (.New "Pusher return error : code : 0, message "))
    ∧ NewClient cfg appKey none (.ok errorFrame)
        ≠ (none, some (.New "Pusher return error : code : 4001, message Over capacity")) := by
  refine ⟨by rfl, by rfl, ?_⟩
  have h : NewClient cfg appKey none (.ok errorFrame)
      = (none, some (.New "Pusher return error : code : 0, message ")) := by rfl
  rw [h]
  decide

/-- C2, evaluated on the code: on the handshake frame with event
`pusher:connection_established` and data `{"socket_id":"123.456","activity_timeout":120}`,
`NewClient` returns a session with socket id `123.456`, an empty Subscription Set and an empty
Binding Table, but its activity timeout is 0, not 120. -/
theorem NewClient_established_frame_loses_activity_timeout (cfg : Config) (appKey : String) :
    unmarshalEvent establishedFrame
        = .ok ⟨"pusher:connection_established",
            "\x7b\"socket_id\":\"123.456\",\"activity_timeout\":120\x7d"⟩
    ∧ ∃ c : Client, NewClient cfg appKey none (.ok establishedFrame) = (some c, none)
      ∧ c.PusherConn = some ⟨"123.456", 0⟩
      ∧ c.subscribedChannels.channels = []
      ∧ c.binders = [] := by
  refine ⟨by rfl, ?_⟩
  exact ⟨_, by rfl, by rfl, by rfl, by rfl⟩

/-! ## Subscriptions -/

/-- C3, evaluated on the code: `Subscribe` of the topic `a"b`, which is not in the Subscription
Set of `session`, with a send that succeeds, hands one frame to the transport and adds the
topic to the set, but the frame, in which the topic stands unescaped, is not a JSON text at
all, so it is not the object with data `{"channel": T}`. -/
theorem Subscribe_quote_in_topic_sends_invalid_json :
    session.subscribedChannels.contains "a\"b" = false
    ∧ (session.Subscribe "a\"b" none).1.ws.sent
        = ["\x7b\"event\":\"pusher:subscribe\",\"data\":\x7b\"channel\":\"a\"b\"\x7d\x7d"]
    ∧ parseJSON "\x7b\"event\":\"pusher:subscribe\",\"data\":\x7b\"channel\":\"a\"b\"\x7d\x7d" = none
    ∧ (session.Subscribe "a\"b" none).1.subscribedChannels.channels = ["a\"b"]
    ∧ (session.Subscribe "a\"b" none).2 = none := by
  exact ⟨by rfl, by rfl, by rfl, by rfl, by rfl⟩

/-- What `Subscribe` does for a topic that is not in the Subscription Set: one frame, the
template with the topic put in as it is, is handed to the transport; when the send succeeds no
error is returned and the set is the old set plus the topic; when the send fails its error is
returned and the set is unchanged. -/
theorem Subscribe_effects (c : Client) (T : String) (sendErr : Option Error)
    (hT : c.subscribedChannels.contains T = false) :
    (c.Subscribe T sendErr).1.ws.sent = c.ws.sent ++
        ["\x7b\"event\":\"pusher:subscribe\",\"data\":\x7b\"channel\":\"" ++ T ++ "\"\x7d\x7d"]
    ∧ (sendErr = none →
        (c.Subscribe T sendErr).2 = none
        ∧ (c.Subscribe T sendErr).1.subscribedChannels.channels = c.subscribedChannels.channels ++ [T])
    ∧ (∀ e, sendErr = some e →
        (c.Subscribe T sendErr).2 = some e
        ∧ (c.Subscribe T sendErr).1.subscribedChannels = c.subscribedChannels) := by
  have hadd := contains_add c.subscribedChannels T hT
  cases sendErr with
  | none => simp [Client.Subscribe, hT, Client.send, hadd]
  | some err => simp [Client.Subscribe, hT, Client.send]

/-- The scenario of the spec: `Subscribe("room1")` on a fresh session sends
`{"event":"pusher:subscribe","data":{"channel":"room1"}}`, which is the JSON object with that
event and that data, and leaves the Subscription Set `{"room1"}`. -/
theorem Subscribe_room1 :
    (session.Subscribe "room1" none).1.ws.sent
        = ["\x7b\"event\":\"pusher:subscribe\",\"data\":\x7b\"channel\":\"room1\"\x7d\x7d"]
    ∧ parseJSON "\x7b\"event\":\"pusher:subscribe\",\"data\":\x7b\"channel\":\"room1\"\x7d\x7d"
        = some (.obj [("event", .str "pusher:subscribe"), ("data", .obj [("channel", .str "room1")])])
    ∧ (session.Subscribe "room1" none).1.subscribedChannels.channels = ["room1"] := by
  exact ⟨by rfl, by rfl, by rfl⟩

/-- C10, evaluated on the code: when the authorizer answers with the body `null`, the decoding
reports no error and leaves the map nil, and `SubscribeWithAuthorization` panics on the write
of the `channel` key instead of returning an error. -/
theorem SubscribeWithAuthorization_null_body_panics (sc : Strconv) (sendErr : Option Error) :
    session.subscribedChannels.contains "private-room" = false
    ∧ unmarshalMap sc "null" = .ok none
    ∧ Client.SubscribeWithAuthorization sc session "private-room" ⟨"null", []⟩ sendErr
        = .panicked "assignment to entry in nil map" := by
  exact ⟨by rfl, by rfl, by rfl⟩

/-- A body that is JSON of another shape, or no JSON, is refused with an error: nothing is
sent and the Subscription Set is unchanged. -/
theorem SubscribeWithAuthorization_other_bodies (sendErr : Option Error) :
    (∀ body ∈ ["[1]", "5", "\"x\"", "true", "", "not json"],
      ∃ c1, Client.SubscribeWithAuthorization plainStrconv session "private-room" ⟨body, []⟩ sendErr
          = .returned (c1, some (.New "Body Json Malformed"))
        ∧ c1.ws.sent = [] ∧ c1.subscribedChannels = session.subscribedChannels) := by
  intro body hb
  simp only [List.mem_cons, List.mem_singleton, List.not_mem_nil, or_false] at hb
  rcases hb with h | h | h | h | h | h <;> subst h <;> exact ⟨_, by rfl, by rfl, by rfl⟩

/-- C4 as stated fails: the body `{"a":1e999}` is a JSON object, but its number is outside the
range of `float64`, so `json.Unmarshal` returns an error; `SubscribeWithAuthorization` then
returns the Malformed-Body error, hands no frame to the transport and leaves the Subscription
Set as it was. -/
theorem SubscribeWithAuthorization_refuses_out_of_range_number :
    parseJSON "\x7b\"a\":1e999\x7d" = some (.obj [("a", .num "1e999")])
    ∧ float64Overflows "1e999" = true
    ∧ session.subscribedChannels.contains "private-room" = false
    ∧ ∃ c1, Client.SubscribeWithAuthorization rangeStrconv session "private-room"
          ⟨"\x7b\"a\":1e999\x7d", []⟩ none = .returned (c1, some (.New "Body Json Malformed"))
        ∧ c1.ws.sent = []
        ∧ c1.subscribedChannels.channels = [] := by
  exact ⟨by rfl, by decide, by rfl, _, by rfl, by rfl, by rfl⟩

/-- C4, amended: let the topic `T` not be in the Subscription Set and the authorizer be
reached.  When the body is a JSON object that `json.Unmarshal` decodes without error into the
map `M` (no number of it is outside the range of `float64`), and `strconv` formats the numbers
of `M` as JSON number literals, `SubscribeWithAuthorization(T)` hands exactly one frame to the
transport.  That frame is a JSON text, the object whose `event` is `pusher:subscribe` and
whose `data` is an object `D` with pairwise distinct keys, in which `channel` is `T`, whatever
the body had under `channel`, and every other key of the body carries the re-encoding of the
value of its last member with that key: a string as it was, a number as `strconv` formats the
`float64` it was parsed to, any value as the encoding of what it decoded to; a key the body
does not have is not in `D`.  When the send succeeds no error is returned and the set is the
old set plus `T`; when it fails its error is returned and the set is unchanged.  When
`json.Unmarshal` refuses the body, the Malformed-Body error is returned, no frame is sent and
the set is unchanged. -/
theorem SubscribeWithAuthorization_sends_body_with_channel (sc : Strconv) (c : Client) (T : String)
    (http : HttpResult) (sendErr : Option Error) (conn : ConnectionData)
    (hT : c.subscribedChannels.contains T = false)
    (hconn : c.PusherConn = some conn)
    (hhttp : http.errs = []) :
    (∀ kvs M, parseJSON http.body = some (.obj kvs) → decodeEntries sc kvs [] = .ok M →
      WritableEntries sc M →
      ∃ c1 res frame D,
        Client.SubscribeWithAuthorization sc c T http sendErr = .returned (c1, res)
        ∧ c1.ws.sent = c.ws.sent ++ [frame]
        ∧ parseJSON frame = some (.obj [("event", .str "pusher:subscribe"), ("data", .obj D)])
        ∧ (D.map Prod.fst).Nodup
        ∧ mapGet "channel" D = some (.str T)
        ∧ (∀ k, k ≠ "channel" → lastMember k kvs = none → mapGet k D = none)
        ∧ (∀ k j, k ≠ "channel" → lastMember k kvs = some j →
            ∃ v, decodeInterface sc j = .ok v ∧ mapGet k D = some (toJSON sc v))
        ∧ (∀ k s, k ≠ "channel" → lastMember k kvs = some (.str s) → mapGet k D = some (.str s))
        ∧ (∀ k lit, k ≠ "channel" → lastMember k kvs = some (.num lit) →
            mapGet k D = some (.num (sc.formatFloat lit)))
        ∧ (sendErr = none →
            res = none ∧ c1.subscribedChannels.channels = c.subscribedChannels.channels ++ [T])
        ∧ (∀ e, sendErr = some e → res = some e ∧ c1.subscribedChannels = c.subscribedChannels))
    ∧ (∀ e, unmarshalMap sc http.body = .error e →
        ∃ c1, Client.SubscribeWithAuthorization sc c T http sendErr
            = .returned (c1, some (.New "Body Json Malformed"))
          ∧ c1.ws.sent = c.ws.sent
          ∧ c1.subscribedChannels = c.subscribedChannels) := by
  refine ⟨?_, ?_⟩
  · intro kvs M hjson hdec hw
    have hbody : unmarshalMap sc http.body = .ok (some M) := by
      simp only [unmarshalMap, hjson, hdec]
    have hadd := contains_add c.subscribedChannels T hT
    have hw2 : WritableEntries sc
        [("event", GoVal.string "pusher:subscribe"),
         ("data", GoVal.map (mapSet "channel" (GoVal.string T) M))] := by
      simp only [WritableEntries, Writable]
      exact ⟨trivial, WritableEntries_mapSet sc _ _ M (by simp only [Writable]) hw, trivial⟩
    have hparse : parseJSON ("\x7b\"event\":\"pusher:subscribe\",\"data\":"
          ++ marshalMap sc (mapSet "channel" (GoVal.string T) M) ++ "\x7d")
        = some (.obj [("event", .str "pusher:subscribe"),
            ("data", .obj (entriesJSON sc (mapSet "channel" (GoVal.string T) M)))]) := by
      rw [subscribe_frame_eq, parseJSON_marshal_map sc _ _ _ hw2]
      simp only [entriesJSON, toJSON]
    have hnodup : ((entriesJSON sc (mapSet "channel" (GoVal.string T) M)).map Prod.fst).Nodup := by
      rw [entriesJSON_keys]
      exact sorted_keys_nodup _ (mapSet_sorted _ _ _ (unmarshalMap_sorted sc _ M hbody))
    have hchan : mapGet "channel" (entriesJSON sc (mapSet "channel" (GoVal.string T) M))
        = some (.str T) := by
      rw [mapGet_entriesJSON, mapGet_mapSet_self]
      simp only [Option.map, toJSON]
    have hget : ∀ k, k ≠ "channel" →
        mapGet k (entriesJSON sc (mapSet "channel" (GoVal.string T) M))
          = (mapGet k M).map (toJSON sc) := by
      intro k hk
      rw [mapGet_entriesJSON, mapGet_mapSet_ne _ _ _ _ hk]
    have habsent : ∀ k, k ≠ "channel" → lastMember k kvs = none →
        mapGet k (entriesJSON sc (mapSet "channel" (GoVal.string T) M)) = none := by
      intro k hk hl
      rw [hget k hk, (decodeEntries_get sc k kvs [] M hdec).1 hl]
      rfl
    have hany : ∀ k j, k ≠ "channel" → lastMember k kvs = some j →
        ∃ v, decodeInterface sc j = .ok v
          ∧ mapGet k (entriesJSON sc (mapSet "channel" (GoVal.string T) M))
              = some (toJSON sc v) := by
      intro k j hk hl
      obtain ⟨v, hv, hm⟩ := (decodeEntries_get sc k kvs [] M hdec).2 j hl
      exact ⟨v, hv, by rw [hget k hk, hm]; rfl⟩
    have hstr : ∀ k s, k ≠ "channel" → lastMember k kvs = some (.str s) →
        mapGet k (entriesJSON sc (mapSet "channel" (GoVal.string T) M)) = some (.str s) := by
      intro k s hk hl
      obtain ⟨v, hv, hm⟩ := hany k _ hk hl
      rw [decodeInterface] at hv
      cases hv
      rw [hm, toJSON]
    have hnum : ∀ k lit, k ≠ "channel" → lastMember k kvs = some (.num lit) →
        mapGet k (entriesJSON sc (mapSet "channel" (GoVal.string T) M))
          = some (.num (sc.formatFloat lit)) := by
      intro k lit hk hl
      obtain ⟨v, hv, hm⟩ := hany k _ hk hl
      rw [decodeInterface] at hv
      split at hv
      · cases hv
      · cases hv
        rw [hm, toJSON]
    cases sendErr with
    | none =>
      simp only [Client.SubscribeWithAuthorization, Client.authorize, hT, hconn, hhttp, hbody]
      refine ⟨_, _, _, _, rfl, ?_, hparse, hnodup, hchan, habsent, hany, hstr, hnum, ?_, ?_⟩
      · simp [Client.send, Client.println]
      · intro _
        simp [Client.send, Client.println, hadd]
      · intro e he
        cases he
    | some err =>
      simp only [Client.SubscribeWithAuthorization, Client.authorize, hT, hconn, hhttp, hbody]
      refine ⟨_, _, _, _, rfl, ?_, hparse, hnodup, hchan, habsent, hany, hstr, hnum, ?_, ?_⟩
      · simp [Client.send, Client.println]
      · intro h
        cases h
      · intro e he
        cases he
        simp [Client.send, Client.println]
  · intro e hbody
    simp only [Client.SubscribeWithAuthorization, Client.authorize, hT, hconn, hhttp, hbody]
    exact ⟨_, rfl, by simp [Client.println], by simp [Client.println]⟩

/-- C4, amended, on the scenario of the spec: with the topic `private-room` and the authorizer
body `{"auth":"key:sig"}` the one frame sent is
`{"event":"pusher:subscribe","data":{"auth":"key:sig","channel":"private-room"}}` and the topic
joins the Subscription Set. -/
theorem SubscribeWithAuthorization_sends_body_with_channel_witness :
    (∃ c1 res frame D,
        Client.SubscribeWithAuthorization plainStrconv session "private-room"
            ⟨"\x7b\"auth\":\"key:sig\"\x7d", []⟩ none = .returned (c1, res)
        ∧ c1.ws.sent = session.ws.sent ++ [frame]
        ∧ parseJSON frame = some (.obj [("event", .str "pusher:subscribe"), ("data", .obj D)])
        ∧ (D.map Prod.fst).Nodup
        ∧ mapGet "channel" D = some (.str "private-room")
        ∧ (∀ k, k ≠ "channel" → lastMember k [("auth", JSON.str "key:sig")] = none →
            mapGet k D = none)
        ∧ (∀ k j, k ≠ "channel" → lastMember k [("auth", JSON.str "key:sig")] = some j →
            ∃ v, decodeInterface plainStrconv j = .ok v
              ∧ mapGet k D = some (toJSON plainStrconv v))
        ∧ (∀ k s, k ≠ "channel" →
            lastMember k [("auth", JSON.str "key:sig")] = some (.str s) →
            mapGet k D = some (.str s))
        ∧ (∀ k lit, k ≠ "channel" →
            lastMember k [("auth", JSON.str "key:sig")] = some (.num lit) →
            mapGet k D = some (.num (plainStrconv.formatFloat lit)))
        ∧ ((none : Option Error) = none →
            res = none
            ∧ c1.subscribedChannels.channels = session.subscribedChannels.channels ++ ["private-room"])
        ∧ (∀ e, (none : Option Error) = some e →
            res = some e ∧ c1.subscribedChannels = session.subscribedChannels))
    ∧ (∃ c1, Client.SubscribeWithAuthorization plainStrconv session "private-room"
            ⟨"\x7b\"auth\":\"key:sig\"\x7d", []⟩ none = .returned (c1, none)
        ∧ c1.ws.sent
            = ["\x7b\"event\":\"pusher:subscribe\",\"data\":\x7b\"auth\":\"key:sig\",\"channel\":\"private-room\"\x7d\x7d"]
        ∧ c1.subscribedChannels.channels = ["private-room"]) :=
  ⟨(SubscribeWithAuthorization_sends_body_with_channel plainStrconv session "private-room"
      ⟨"\x7b\"auth\":\"key:sig\"\x7d", []⟩ none ⟨"123.456", 0⟩ (by rfl) (by rfl) (by rfl)).1
      [("auth", JSON.str "key:sig")] [("auth", GoVal.string "key:sig")] (by rfl) (by rfl)
      (by simp only [WritableEntries, Writable, and_self]),
   ⟨_, by rfl, by rfl, by rfl⟩⟩

/-- A body with a number: with `{"n":12}` the frame sent has data
`{"channel":"private-room","n":12}`, and the premise of the amended C4 on `strconv` holds for
the decoded map. -/
theorem SubscribeWithAuthorization_number_field :
    WritableEntries plainStrconv [("n", GoVal.float64 "12")]
    ∧ ∃ c1, Client.SubscribeWithAuthorization plainStrconv session "private-room"
          ⟨"\x7b\"n\":12\x7d", []⟩ none = .returned (c1, none)
        ∧ c1.ws.sent
            = ["\x7b\"event\":\"pusher:subscribe\",\"data\":\x7b\"channel\":\"private-room\",\"n\":12\x7d\x7d"]
        ∧ c1.subscribedChannels.channels = ["private-room"] := by
  refine ⟨?_, _, by rfl, by rfl, by rfl⟩
  simp only [WritableEntries, Writable, and_true]
  refine ⟨⟨'1', ['2'], rfl, by decide⟩, ?_⟩
  intro d rest hd
  rcases hd with h | h | h <;> subst h <;> rfl

/-- C5: a rejected request touches nothing.  After a `Subscribe(T)` that returned no error the
topic is in the Subscription Set; `Subscribe(T)` with `T` in the set returns the "already
subscribed" error and `Unsubscribe(T)` with `T` not in the set returns the "not subscribed"
error, and in both cases the whole state is as before: no frame was handed to the transport
and the set is unchanged. -/
theorem rejected_request_touches_nothing (c : Client) (T : String) (e1 e2 : Option Error) :
    ((c.Subscribe T e1).2 = none →
      (c.Subscribe T e1).1.subscribedChannels.contains T = true
      ∧ (c.Subscribe T e1).1.Subscribe T e2
          = ((c.Subscribe T e1).1, some (.New ("Channel " ++ T ++ " already subscribed"))))
    ∧ (c.subscribedChannels.contains T = true →
        c.Subscribe T e2 = (c, some (.New ("Channel " ++ T ++ " already subscribed"))))
    ∧ (c.subscribedChannels.contains T = false →
        c.Unsubscribe T e2 = (c, some (.New ("Client isn\x27t subscrived to " ++ T)))) := by
  have hrej : ∀ d : Client, d.subscribedChannels.contains T = true →
      d.Subscribe T e2 = (d, some (.New ("Channel " ++ T ++ " already subscribed"))) := by
    intro d hd
    simp [Client.Subscribe, hd]
  refine ⟨?_, hrej c, ?_⟩
  · intro hok
    have hmem : (c.Subscribe T e1).1.subscribedChannels.contains T = true := by
      by_cases hc : c.subscribedChannels.contains T = true
      · simp [Client.Subscribe, hc] at hok
      · have hc2 : c.subscribedChannels.contains T = false := by simpa using hc
        cases e1 with
        | some err => simp [Client.Subscribe, hc2] at hok
        | none =>
          have hadd := contains_add c.subscribedChannels T hc2
          simp only [Client.Subscribe, hc2, Client.send, hadd]
          exact contains_after_add _ _
    exact ⟨hmem, hrej _ hmem⟩
  · intro hc
    simp [Client.Unsubscribe, hc]

/-- C5 on a fresh session and the topic `room1`. -/
theorem rejected_request_touches_nothing_witness :
    ((session.Subscribe "room1" none).1.subscribedChannels.contains "room1" = true
      ∧ (session.Subscribe "room1" none).1.Subscribe "room1" none
          = ((session.Subscribe "room1" none).1,
              some (.New ("Channel " ++ "room1" ++ " already subscribed"))))
    ∧ session.Unsubscribe "room1" none
        = (session, some (.New ("Client isn\x27t subscrived to " ++ "room1"))) :=
  ⟨(rejected_request_touches_nothing session "room1" none none).1 (by rfl),
   (rejected_request_touches_nothing session "room1" none none).2.2 (by rfl)⟩

/-! ## Bindings -/

/-- C6: on a Binding Table without an entry for `E`, `Bind(E)` returns no error and a channel
that did not exist before, empty and of the configured capacity, and registers it under `E`,
every other entry staying as it was; a second `Bind(E)` returns an error and no channel and
leaves the whole state, the Binding Table included, as the first call left it. -/
theorem Bind_twice (cfg : Config) (c : Client) (E : String) (h : mapGet E c.binders = none) :
    (c.Bind cfg E).2 = (some c.heap.length, none)
    ∧ c.heap[c.heap.length]? = none
    ∧ (c.Bind cfg E).1.heap[c.heap.length]? = some ⟨cfg.EVENT_CHANNEL_BUFF_SIZE, []⟩
    ∧ mapGet E (c.Bind cfg E).1.binders = some c.heap.length
    ∧ (∀ k, k ≠ E → mapGet k (c.Bind cfg E).1.binders = mapGet k c.binders)
    ∧ (c.Bind cfg E).1.Bind cfg E
        = ((c.Bind cfg E).1, none, some (.New ("Event " ++ E ++ " already binded"))) := by
  have h1 : c.Bind cfg E
      = ({ c with heap := c.heap ++ [⟨cfg.EVENT_CHANNEL_BUFF_SIZE, []⟩],
                  binders := mapSet E c.heap.length c.binders },
          some c.heap.length, none) := by
    simp [Client.Bind, h]
  rw [h1]
  refine ⟨rfl, by simp, by simp, mapGet_mapSet_self _ _ _,
    fun k hk => mapGet_mapSet_ne _ _ _ _ hk, ?_⟩
  simp [Client.Bind, mapGet_mapSet_self]

/-- C6 on a fresh session and the event name `my-event`. -/
theorem Bind_twice_witness :
    (session.Bind sampleConfig "my-event").2 = (some session.heap.length, none)
    ∧ session.heap[session.heap.length]? = none
    ∧ (session.Bind sampleConfig "my-event").1.heap[session.heap.length]?
        = some ⟨sampleConfig.EVENT_CHANNEL_BUFF_SIZE, []⟩
    ∧ mapGet "my-event" (session.Bind sampleConfig "my-event").1.binders = some session.heap.length
    ∧ (∀ k, k ≠ "my-event" →
        mapGet k (session.Bind sampleConfig "my-event").1.binders = mapGet k session.binders)
    ∧ (session.Bind sampleConfig "my-event").1.Bind sampleConfig "my-event"
        = ((session.Bind sampleConfig "my-event").1, none,
            some (.New ("Event " ++ "my-event" ++ " already binded"))) :=
  Bind_twice sampleConfig session "my-event" (by rfl)

/-! ## The dispatch loop -/

/-- C7: for every state, whatever its Binding Table, one pass of the loop on a received frame
that decodes to an Envelope with event name `pusher:ping` hands exactly one frame to the
transport; that frame decodes to the Envelope with event name `pusher:pong` whose data is the
text of the empty JSON object; no channel receives anything and the Binding Table is
unchanged. -/
theorem listenIter_ping (c : Client) (msg : String) (event : Event)
    (hdec : unmarshalEvent msg = .ok event) (hping : event.Event = "pusher:ping") :
    ∃ c1, c.listenIter (.message msg) = .next c1
      ∧ c1.ws.sent = c.ws.sent ++ [pongFrame]
      ∧ unmarshalEvent pongFrame = .ok ⟨"pusher:pong", "\x7b\x7d"⟩
      ∧ parseJSON "\x7b\x7d" = some (.obj [])
      ∧ c1.heap = c.heap
      ∧ c1.binders = c.binders := by
  refine ⟨(c.println [.text msg]).send pongFrame, ?_, rfl, by rfl, by rfl, rfl, rfl⟩
  simp [Client.listenIter, hdec, hping]

/-- C7 on a session in which `pusher:ping` is bound: the ping is answered and the bound
channel receives nothing. -/
theorem listenIter_ping_witness :
    ∃ c1, pingBoundSession.listenIter (.message pingFrame) = .next c1
      ∧ c1.ws.sent = pingBoundSession.ws.sent ++ [pongFrame]
      ∧ unmarshalEvent pongFrame = .ok ⟨"pusher:pong", "\x7b\x7d"⟩
      ∧ parseJSON "\x7b\x7d" = some (.obj [])
      ∧ c1.heap = pingBoundSession.heap
      ∧ c1.binders = pingBoundSession.binders :=
  listenIter_ping pingBoundSession pingFrame ⟨"pusher:ping", "\x7b\x7d"⟩ (by rfl) (by rfl)

/-- A frame whose `data` member is not a string is not an Envelope: decoding it fails, the
failure is logged and nothing is sent, whatever its `event` member says. -/
theorem listenIter_undecodable_frame :
    unmarshalEvent "\x7b\"event\":\"pusher:ping\",\"data\":\x7b\x7d\x7d"
        = .error (.UnmarshalTypeError "object")
    ∧ session.listenIter (.message "\x7b\"event\":\"pusher:ping\",\"data\":\x7b\x7d\x7d")
        = .next ((session.println
              [.text "\x7b\"event\":\"pusher:ping\",\"data\":\x7b\x7d\x7d"]).println
            [.text "Listen error : ", .err (.UnmarshalTypeError "object")]) := by
  exact ⟨by rfl, by rfl⟩

/-- C8 as stated fails: in `fullSession` the name `my-event` is bound to a channel whose buffer
is full; the pass of the loop on a frame that carries `my-event` does not reach the end of the
body, it is blocked in the send, and the Envelope is in no channel. -/
theorem listenIter_full_channel_blocks :
    unmarshalEvent myEventFrame = .ok ⟨"my-event", "second"⟩
    ∧ mapGet "my-event" fullSession.binders = some 2
    ∧ fullSession.listenIter (.message myEventFrame)
        = .blocked (fullSession.println [.text myEventFrame]) 2 ⟨"my-event", "second"⟩
    ∧ (fullSession.println [.text myEventFrame]).heap = fullSession.heap
    ∧ ¬ ∃ c1, fullSession.listenIter (.message myEventFrame) = .next c1 := by
  refine ⟨by rfl, by rfl, by rfl, by rfl, ?_⟩
  rintro ⟨c1, h⟩
  have hb : fullSession.listenIter (.message myEventFrame)
      = .blocked (fullSession.println [.text myEventFrame]) 2 ⟨"my-event", "second"⟩ := by rfl
  rw [hb] at h
  cases h

/-- C8, amended: for a received frame that decodes to an Envelope whose event name `N` is none
of `pusher:ping`, `pusher:pong`, `pusher:error`: if the Binding Table has a channel for `N`
and its buffer has room, the pass of the loop appends that Envelope to the buffer of that
channel and changes nothing else but the log; if the buffer is full the pass is blocked in the
send with nothing delivered; if the table has no channel for `N` the frame is dropped.  In all
three cases only the received message is logged (no error), no frame is sent and the Binding
Table is unchanged. -/
theorem listenIter_dispatch (c : Client) (msg : String) (event : Event)
    (hdec : unmarshalEvent msg = .ok event)
    (h1 : event.Event ≠ "pusher:ping") (h2 : event.Event ≠ "pusher:pong")
    (h3 : event.Event ≠ "pusher:error") :
    (∀ ch q, mapGet event.Event c.binders = some ch → c.heap[ch]? = some q →
        q.buf.length < q.cap →
        c.listenIter (.message msg)
          = .next { c.println [.text msg] with heap := c.heap.set ch ⟨q.cap, q.buf ++ [event]⟩ })
    ∧ (∀ ch q, mapGet event.Event c.binders = some ch → c.heap[ch]? = some q →
        q.cap ≤ q.buf.length →
        c.listenIter (.message msg) = .blocked (c.println [.text msg]) ch event)
    ∧ (mapGet event.Event c.binders = none →
        c.listenIter (.message msg) = .next (c.println [.text msg])) := by
  refine ⟨?_, ?_, ?_⟩
  · intro ch q hb hq hroom
    simp [Client.listenIter, hdec, h1, h2, h3, Client.println, hb, chanSend, hq, hroom]
  · intro ch q hb hq hfull
    have hnot : ¬ q.buf.length < q.cap := Nat.not_lt.mpr hfull
    simp [Client.listenIter, hdec, h1, h2, h3, Client.println, hb, chanSend, hq, hnot]
  · intro hb
    simp [Client.listenIter, hdec, h1, h2, h3, Client.println, hb]

/-- C8, amended, on a bound channel with room, on a full one, and without a binding. -/
theorem listenIter_dispatch_witness :
    boundSession.listenIter (.message myEventFrame)
        = .next { boundSession.println [.text myEventFrame] with
                  heap := boundSession.heap.set 2 ⟨100, [] ++ [⟨"my-event", "second"⟩]⟩ }
    ∧ fullSession.listenIter (.message myEventFrame)
        = .blocked (fullSession.println [.text myEventFrame]) 2 ⟨"my-event", "second"⟩
    ∧ session.listenIter (.message myEventFrame) = .next (session.println [.text myEventFrame]) :=
  ⟨(listenIter_dispatch boundSession myEventFrame ⟨"my-event", "second"⟩ (by rfl)
      (by decide) (by decide) (by decide)).1 2 ⟨100, []⟩ (by rfl) (by rfl) (by decide),
   (listenIter_dispatch fullSession myEventFrame ⟨"my-event", "second"⟩ (by rfl)
      (by decide) (by decide) (by decide)).2.1 2 ⟨1, [⟨"my-event", "first"⟩]⟩ (by rfl) (by rfl)
      (by decide),
   (listenIter_dispatch session myEventFrame ⟨"my-event", "second"⟩ (by rfl)
      (by decide) (by decide) (by decide)).2.2 (by rfl)⟩

/-- A failed receive leaves the message empty; the empty message is no JSON text, the failure
to decode it is logged, and the pass ends at the bottom of the body of the loop. -/
theorem listenIter_failed (c : Client) (e : Error) :
    c.listenIter (.failed e)
      = .next ((c.println [.text ""]).println [.text "Listen error : ", .err .SyntaxError]) := by
  simp [Client.listenIter, unmarshalEvent_empty]

/-- On a transport whose every receive fails the loop makes every pass it is given and only
logs. -/
theorem listenFrom_closed (recv : Nat → Recv) (hrecv : ∀ i, ∃ e, recv i = .failed e) :
    ∀ (n i : Nat) (c : Client),
      (Client.listenFrom recv n i c).receives = i + n
      ∧ (Client.listenFrom recv n i c).blocked = false
      ∧ (Client.listenFrom recv n i c).client.ws = c.ws
      ∧ (Client.listenFrom recv n i c).client.subscribedChannels = c.subscribedChannels
      ∧ (Client.listenFrom recv n i c).client.binders = c.binders
      ∧ (Client.listenFrom recv n i c).client.heap = c.heap := by
  intro n
  induction n with
  | zero =>
    intro i c
    simp [Client.listenFrom]
  | succ n ih =>
    intro i c
    obtain ⟨e, he⟩ := hrecv i
    have hstep : Client.listenFrom recv (n + 1) i c
        = Client.listenFrom recv n (i + 1)
            ((c.println [.text ""]).println [.text "Listen error : ", .err .SyntaxError]) := by
      simp [Client.listenFrom, he, listenIter_failed]
    rw [hstep]
    obtain ⟨h1, h2, h3, h4, h5, h6⟩ :=
      ih (i + 1) ((c.println [.text ""]).println [.text "Listen error : ", .err .SyntaxError])
    refine ⟨by omega, h2, ?_, ?_, ?_, ?_⟩
    · rw [h3]; rfl
    · rw [h4]; rfl
    · rw [h5]; rfl
    · rw [h6]; rfl

/-- C9 as stated fails: on a transport whose every receive fails, as after `Close`, the loop
does not stop at the first failed receive; unrolled three passes it has called `Receive` three
times and is not blocked. -/
theorem listen_runs_on_after_failed_receive :
    closedTransport 0 = .failed (.transport "use of closed network connection")
    ∧ (session.listen closedTransport 3).receives = 3
    ∧ (session.listen closedTransport 3).blocked = false
    ∧ ¬ (session.listen closedTransport 3).receives ≤ 1 := by
  refine ⟨rfl, by rfl, by rfl, ?_⟩
  have h : (session.listen closedTransport 3).receives = 3 := by rfl
  rw [h]
  decide

/-- C9, amended: a failed receive does not end the Read/Dispatch Loop.  The error of the
receive is ignored, the empty message fails to decode, that is logged, and the loop goes on
with the next receive; on a transport whose every receive fails the loop makes pass after pass
(`n` passes for every `n`), each of which only logs: nothing is sent, and the Subscription Set,
the Binding Table and the channels stay as they were. -/
theorem listen_never_stops_on_failed_receive (c : Client) (recv : Nat → Recv) :
    (∀ n i e, recv i = .failed e →
        Client.listenFrom recv (n + 1) i c
          = Client.listenFrom recv n (i + 1)
              ((c.println [.text ""]).println [.text "Listen error : ", .err .SyntaxError]))
    ∧ ((∀ i, ∃ e, recv i = .failed e) → ∀ n,
        (c.listen recv n).receives = n
        ∧ (c.listen recv n).blocked = false
        ∧ (c.listen recv n).client.ws = c.ws
        ∧ (c.listen recv n).client.subscribedChannels = c.subscribedChannels
        ∧ (c.listen recv n).client.binders = c.binders
        ∧ (c.listen recv n).client.heap = c.heap) := by
  refine ⟨?_, ?_⟩
  · intro n i e he
    simp [Client.listenFrom, he, listenIter_failed]
  · intro hrecv n
    have h := listenFrom_closed recv hrecv n 0 c
    simpa [Client.listen] using h

/-- C9, amended, on a fresh session and a transport that was closed. -/
theorem listen_never_stops_on_failed_receive_witness :
    Client.listenFrom closedTransport (2 + 1) 0 session
        = Client.listenFrom closedTransport 2 (0 + 1)
            ((session.println [.text ""]).println [.text "Listen error : ", .err .SyntaxError])
    ∧ (session.listen closedTransport 5).receives = 5
    ∧ (session.listen closedTransport 5).blocked = false
    ∧ (session.listen closedTransport 5).client.ws = session.ws :=
  ⟨(listen_never_stops_on_failed_receive session closedTransport).1 2 0
      (.transport "use of closed network connection") rfl,
   ((listen_never_stops_on_failed_receive session closedTransport).2
      (fun _ => ⟨.transport "use of closed network connection", rfl⟩) 5).1,
   ((listen_never_stops_on_failed_receive session closedTransport).2
      (fun _ => ⟨.transport "use of closed network connection", rfl⟩) 5).2.1,
   ((listen_never_stops_on_failed_receive session closedTransport).2
      (fun _ => ⟨.transport "use of closed network connection", rfl⟩) 5).2.2.1⟩

end Pusher
